import Mathlib

/-
Shallow embedding of src/kabufuda.cpp (Kabufuda solitaire solver).

Modelling conventions, each matching the source:
* `Card` (class Card, an int8_t asserted to lie in [0,10)) is `Fin 10`.
* `CardStack` (class CardStack: `std::vector<Card> stack; bool is_collapsed`)
  is a structure of a `List Card` and a `Bool`.  The vector's BACK (the top
  of the pile) is the HEAD of the list, so `push_back` is `cons`,
  `pop_back` is `tail`, and `stack.back()` is `head`.
* `SwapField` (class SwapField: `std::optional<Card> card` plus a four-state
  enum) is a four-constructor inductive.  Every member function of the class
  keeps `card.has_value()` equivalent to the state being Occupied or
  Collapsed, and the members are private, so the four constructors cover
  exactly the representable states of the class.
* `Board` holds `swaps : Fin 4 → SwapField` and `field : Fin 8 → CardStack`,
  mirroring `std::array<SwapField, 4>` and `std::array<CardStack, 8>`.
* C++ `assert`s are modelled as failure: an operation whose assertion can
  fire returns `Option`, and `none` models the assertion firing (the
  program aborting).  This includes the `assert(b.isValid())` at the end of
  `executeMove`.
* `std::ranges::sort` in `getAllValidMoves` is modelled by
  `List.insertionSort` with the same comparator.  The C++ sort is not
  stable, so only the sortedness of the result (not the tie order) is a
  property of the source; the embedding necessarily picks one concrete
  sorted permutation to stay executable.
* The unbounded `while` loop of `solve` is modelled by a fuel-indexed
  iteration `solveLoop`; `SolveResult.outOfFuel` signals exhausted fuel,
  `SolveResult.popEmpty` models the `move_stack.pop_back()` on an empty
  vector (undefined behaviour in C++), and `SolveResult.execFail` models an
  assertion firing inside `executeMove`.
-/

namespace Kabufuda


/-- Card: one of the ten suits 0-9 (class Card asserts 0 <= c < 10). -/
abbrev Card : Type := Fin 10

/-- CardStack: a pile of cards plus the collapse flag.  Head of `cards` is
the top of the pile (the back of the C++ vector). -/
structure CardStack where
  cards : List Card
  collapsed : Bool
deriving DecidableEq

namespace CardStack

/-- CardStack::isEmpty. -/
def isEmpty (s : CardStack) : Bool := s.cards.isEmpty

/-- CardStack::isCollapsed. -/
def isCollapsed (s : CardStack) : Bool := s.collapsed

/-- CardStack::getTop, total with a junk default: every call site in the
source is guarded by a non-emptiness check, where the default is dead. -/
def getTopD (s : CardStack) : Card := s.cards.headD ⟨0, by omega⟩

/-- CardStack::getTopSize: the number of cards equal to the top card,
contiguous from the top (0 for the empty stack, which the source never
queries). -/
def getTopSize (s : CardStack) : Nat :=
  match s.cards with
  | [] => 0
  | t :: _ => (s.cards.takeWhile (fun c => c = t)).length

/-- CardStack::pushStack: push `n` copies of `c`; the per-push
`assert(!isCollapsed())` is modelled as failure. -/
def pushStackN (s : CardStack) (c : Card) (n : Nat) : Option CardStack :=
  if s.collapsed then none else some ⟨List.replicate n c ++ s.cards, s.collapsed⟩

/-- CardStack::popCards: `assert(!isCollapsed())` and
`assert(size <= getTopSize())`, then pop `n` cards. -/
def popCards (s : CardStack) (n : Nat) : Option CardStack :=
  if s.collapsed then none
  else if n ≤ s.getTopSize then some ⟨s.cards.drop n, s.collapsed⟩
  else none

/-- CardStack::tryCollapse: sets the flag when the stack holds exactly 4
cards all equal; returns the stack and the resulting isCollapsed(). -/
def tryCollapse (s : CardStack) : CardStack × Bool :=
  if s.cards.length = 4 ∧ s.getTopSize = 4 then (⟨s.cards, true⟩, true)
  else (s, s.collapsed)

/-- CardStack::size. -/
def size (s : CardStack) : Nat := s.cards.length

end CardStack

/-- SwapField: the four states of the free cell, with the held card as
payload exactly when the class's optional is engaged. -/
inductive SwapField where
  | locked : SwapField
  | free : SwapField
  | occupied (c : Card) : SwapField
  | collapsed (c : Card) : SwapField
deriving DecidableEq

namespace SwapField

/-- SwapField::isLocked. -/
def isLocked : SwapField → Bool
  | .locked => true
  | _ => false

/-- SwapField::isFree. -/
def isFree : SwapField → Bool
  | .free => true
  | _ => false

/-- SwapField::isOccupied. -/
def isOccupied : SwapField → Bool
  | .occupied _ => true
  | _ => false

/-- SwapField::isCollapsed. -/
def isCollapsedSwap : SwapField → Bool
  | .collapsed _ => true
  | _ => false

/-- SwapField::getCard, total with a junk default; the source only calls it
behind an Occupied/Collapsed guard, where the default is dead. -/
def getCardD : SwapField → Card
  | .occupied c => c
  | .collapsed c => c
  | _ => ⟨0, by omega⟩

/-- SwapField::popCard: asserts the field is Occupied, then frees it. -/
def popCard : SwapField → Option SwapField
  | .occupied _ => some .free
  | _ => none

/-- SwapField::pushStack: size 1 pushes a single card (asserting Free);
otherwise asserts size == 4, pushes and collapses. -/
def pushStack (s : SwapField) (c : Card) (size : Int) : Option SwapField :=
  if size = 1 then
    match s with
    | .free => some (.occupied c)
    | _ => none
  else if size = 4 then
    match s with
    | .free => some (.collapsed c)
    | _ => none
  else none

/-- SwapField::size. -/
def size : SwapField → Nat
  | .occupied _ => 1
  | .collapsed _ => 4
  | _ => 0

end SwapField

/-- Board: 8 card stacks and 4 swap fields. -/
structure Board where
  swaps : Fin 4 → SwapField
  field : Fin 8 → CardStack

instance : DecidableEq Board := fun a b =>
  decidable_of_iff (a.swaps = b.swaps ∧ a.field = b.field)
    (by cases a; cases b; simp)

namespace Board

/-- Board::getField for a field index in [0,8); the source asserts the
bound, every call site is range-guarded, and the junk branch is dead. -/
def getField (b : Board) (i : Int) : CardStack :=
  if h : 0 ≤ i ∧ i < 8 then b.field ⟨i.toNat, by omega⟩ else ⟨[], false⟩

/-- Board::getSwap: swap index i in [-4,0) addresses array slot (-i)-1. -/
def getSwap (b : Board) (i : Int) : SwapField :=
  if h : -4 ≤ i ∧ i < 0 then b.swaps ⟨(-i - 1).toNat, by omega⟩ else .locked

/-- Pointwise update of a function out of `Fin n` (Function.update without
the dependent cast, so that it evaluates by `decide`). -/
def updAt {n : Nat} {α : Type} (f : Fin n → α) (i : Fin n) (v : α) : Fin n → α :=
  fun j => if j = i then v else f j

/-- Functional update of one field stack (the write through getField). -/
def setField (b : Board) (i : Int) (s : CardStack) : Board :=
  if h : 0 ≤ i ∧ i < 8 then
    { b with field := updAt b.field ⟨i.toNat, by omega⟩ s }
  else b

/-- Functional update of one swap field (the write through getSwap). -/
def setSwap (b : Board) (i : Int) (s : SwapField) : Board :=
  if h : -4 ≤ i ∧ i < 0 then
    { b with swaps := updAt b.swaps ⟨(-i - 1).toNat, by omega⟩ s }
  else b

/-- Board::unlockSwap: unlock the first Locked swap field in scan order
0,1,2,3; a no-op when none is Locked. -/
def unlockSwap (b : Board) : Board :=
  match (List.finRange 4).find? (fun j => (b.swaps j).isLocked) with
  | some j => { b with swaps := updAt b.swaps j .free }
  | none => b

/-- Total number of cards on the board, as counted by Board::isValid:
vector sizes of the stacks plus SwapField::size of the swaps. -/
def totalCards (b : Board) : Nat :=
  (∑ i : Fin 8, (b.field i).cards.length) + ∑ j : Fin 4, (b.swaps j).size

/-- Per-suit contribution of a swap field, as counted by Board::isValid:
1 for a matching Occupied field, 4 for a matching Collapsed field. -/
def swapCount (c : Card) : SwapField → Nat
  | .occupied d => if d = c then 1 else 0
  | .collapsed d => if d = c then 4 else 0
  | _ => 0

/-- Number of copies of suit `c` on the board, as counted by
Board::isValid. -/
def countCard (c : Card) (b : Board) : Nat :=
  (∑ i : Fin 8, (b.field i).cards.count c) + ∑ j : Fin 4, swapCount c (b.swaps j)

/-- Board::isValid: 40 cards in total and exactly 4 of each suit. -/
def isValid (b : Board) : Bool :=
  decide (b.totalCards = 40) && decide (∀ c : Card, countCard c b = 4)

/-- Board::hasWon: every stack empty or collapsed, no swap Occupied. -/
def hasWon (b : Board) : Bool :=
  decide ((∀ i : Fin 8, (b.field i).cards = [] ∨ (b.field i).collapsed = true) ∧
    ∀ j : Fin 4, (b.swaps j).isOccupied = false)

end Board

/-- Move: transfer `size` cards from slot `from` to slot `to_` (field stacks
0..7, swap fields -1..-4).  `from` is a Lean keyword, hence the field name
`from_`. -/
structure Move where
  from_ : Int
  to_ : Int
  size : Int
deriving DecidableEq

/-- moveIsValid: the context-free structural move check, translated
clause by clause from the source. -/
def moveIsValid (m : Move) : Bool :=
  decide (-4 ≤ m.from_) && decide (m.from_ < 8) &&
  decide (-4 ≤ m.to_) && decide (m.to_ < 8) &&
  decide (0 < m.size) && decide (m.size < 5) &&
  decide (m.from_ ≠ m.to_) &&
  (if m.from_ < 0 then decide (m.size = 1) else true) &&
  (if m.to_ < 0 then decide (m.size = 1) || decide (m.size = 4) else true)

/-- The card that would move from slot `i`: the swap field's card for a
swap index, the stack's top card for a field index (the `from_card` local
of moveIsValidForBoard and the `c` local of executeMove). -/
def fromSlotCard (b : Board) (i : Int) : Card :=
  if i < 0 then (b.getSwap i).getCardD else (b.getField i).getTopD

/-- moveIsValidForBoard: the board-dependent move check, translated
clause by clause from the source. -/
def moveIsValidForBoard (b : Board) (m : Move) : Bool :=
  (if m.from_ < 0 then
    (b.getSwap m.from_).isOccupied && decide (m.size = 1)
  else
    decide (m.size ≤ ((b.getField m.from_).cards.length : Int))) &&
  (if 0 ≤ m.to_ then
    (b.getField m.to_).isEmpty ||
      decide ((b.getField m.to_).getTopD = fromSlotCard b m.from_)
  else
    (b.getSwap m.to_).isFree) &&
  (if 1 < m.size then decide (m.size ≤ ((b.getField m.from_).getTopSize : Int))
  else true)

/-- The removal phase of executeMove: pop the single card off a source
swap field, or pop `size` cards off a source field stack. -/
def removeFrom (b : Board) (m : Move) : Option Board :=
  if m.from_ < 0 then
    ((b.getSwap m.from_).popCard).map (fun sw => b.setSwap m.from_ sw)
  else
    ((b.getField m.from_).popCards m.size.toNat).map (fun s => b.setField m.from_ s)

/-- The push phase of executeMove: push onto a target swap field, or push
onto a target field stack, try to collapse it and unlock a swap field when
the collapse succeeds. -/
def pushTo (b1 : Board) (c : Card) (m : Move) : Option Board :=
  if m.to_ < 0 then
    ((b1.getSwap m.to_).pushStack c m.size).map (fun sw => b1.setSwap m.to_ sw)
  else
    ((b1.getField m.to_).pushStackN c m.size.toNat).map (fun s =>
      if s.tryCollapse.2 then (b1.setField m.to_ s.tryCollapse.1).unlockSwap
      else b1.setField m.to_ s.tryCollapse.1)

/-- executeMove: remove the cards from the source slot, push them onto the
target slot, collapse and unlock as the source does.  The entry asserts,
the asserts inside the stack/swap operations, and the final
`assert(b.isValid())` are all modelled as failure. -/
def executeMove (b : Board) (m : Move) : Option Board :=
  if moveIsValid m = false then none
  else if moveIsValidForBoard b m = false then none
  else
    (removeFrom b m).bind (fun b1 =>
      (pushTo b1 (fromSlotCard b m.from_) m).bind (fun b2 =>
        if b2.isValid then some b2 else none))

/-- The twelve slot indices -4..7, in the enumeration order of the two
loops of getAllValidMoves (`for (int i = -4; i < 8; ++i)`). -/
def intRange12 : List Int := [-4, -3, -2, -1, 0, 1, 2, 3, 4, 5, 6, 7]

/-- Moves emitted by getAllValidMoves for one (from, to) pair, given the
source card `c` and the movable run length `mc`. -/
def movesFromTo (b : Board) (c : Card) (mc : Nat) (i_from i_to : Int) : List Move :=
  if i_to = i_from then []
  else if i_to < 0 then
    match b.getSwap i_to with
    | .free => Move.mk i_from i_to 1 :: (if mc = 4 then [Move.mk i_from i_to 4] else [])
    | _ => []
  else
    if (b.getField i_to).isEmpty || decide ((b.getField i_to).getTopD = c) then
      (List.range mc).map (fun j : Nat => Move.mk i_from i_to ((j : Int) + 1))
    else []

/-- The `max_count` lambda of getAllValidMoves: how many cards can leave
slot `i` (0 skips the slot). -/
def maxCount (b : Board) (i : Int) : Nat :=
  if i < 0 then (if (b.getSwap i).isOccupied then 1 else 0)
  else if (b.getField i).isEmpty || (b.getField i).collapsed then 0
  else (b.getField i).getTopSize

/-- Moves emitted by getAllValidMoves for one source slot: nothing when the
slot has no movable cards, otherwise the inner loop over targets.  The
source's `assert(max_count <= 4)` can only fire on boards with more than 4
equal cards atop a stack, which no board with four cards per suit has. -/
def genFrom (b : Board) (i_from : Int) : List Move :=
  if maxCount b i_from = 0 then []
  else intRange12.flatMap
    (fun i_to => movesFromTo b (fromSlotCard b i_from) (maxCount b i_from) i_from i_to)

/-- All moves of getAllValidMoves before sorting, enumerated from
ascending then to ascending. -/
def rawMoves (b : Board) : List Move := intRange12.flatMap (genFrom b)

/-- The comparator passed to std::ranges::sort, as a total preorder:
`lhs` may precede `rhs` iff `rhs.size <= lhs.size`. -/
def moveOrder (x y : Move) : Prop := y.size ≤ x.size

instance : DecidableRel moveOrder := fun x y => Int.decLe y.size x.size

/-- getAllValidMoves: enumerate from ascending then to ascending, then sort
so that larger moves come first.  `std::ranges::sort` with comparator
`rhs.size < lhs.size` is modelled by insertion sort with the matching
total order; the C++ sort is unstable, so the tie order below is one
concrete choice among the sorted permutations the source allows. -/
def getAllValidMoves (b : Board) : List Move :=
  List.insertionSort moveOrder (rawMoves b)

/-- One search frame of solve: a board, its precomputed move list, and the
cursor of the next move to try. -/
structure Frame where
  b : Board
  valid_moves : List Move
  current_move : Nat
deriving DecidableEq

/-- The mutable state of solve's loop: the frame stack (head = top), the
accumulated path (head = most recent move), and the visited set. -/
structure SearchState where
  stack : List Frame
  move_stack : List Move
  boards : Finset Board

/-- Result of the search loop.  `popEmpty` models the
`move_stack.pop_back()` on an empty vector (undefined behaviour in C++);
`execFail` models an assertion firing inside executeMove; `outOfFuel` is
the fuel bound of the embedding, not a behaviour of the source. -/
inductive SolveResult where
  | found (moves : List Move) : SolveResult
  | popEmpty : SolveResult
  | execFail : SolveResult
  | outOfFuel : SolveResult
deriving DecidableEq

/-- One iteration of solve's while loop, translated branch by branch: pop
an exhausted frame (with the path pop, failing on an empty path), or take
the next move, execute it, prune a visited result, stop on a win, or push
a fresh frame.  The C++ win branch also inserts the winning board into the
visited set before breaking, which no later code observes. -/
def step (st : SearchState) : SearchState ⊕ SolveResult :=
  match st.stack with
  | [] => Sum.inr (.found st.move_stack.reverse)
  | f :: rest =>
    if h : f.current_move < f.valid_moves.length then
      match executeMove f.b (f.valid_moves.get ⟨f.current_move, h⟩) with
      | none => Sum.inr .execFail
      | some nb =>
        if nb ∈ st.boards then
          Sum.inl ⟨{ f with current_move := f.current_move + 1 } :: rest,
            st.move_stack, st.boards⟩
        else if nb.hasWon then
          Sum.inr (.found (f.valid_moves.get ⟨f.current_move, h⟩ :: st.move_stack).reverse)
        else
          Sum.inl ⟨⟨nb, getAllValidMoves nb, 0⟩ ::
              { f with current_move := f.current_move + 1 } :: rest,
            f.valid_moves.get ⟨f.current_move, h⟩ :: st.move_stack,
            insert nb st.boards⟩
    else
      match st.move_stack with
      | [] => Sum.inr .popEmpty
      | _ :: p => Sum.inl ⟨rest, p, st.boards⟩

/-- The while loop of solve, indexed by fuel. -/
def solveLoop : Nat → SearchState → SolveResult
  | 0, _ => .outOfFuel
  | fuel + 1, st =>
    match step st with
    | Sum.inr r => r
    | Sum.inl st' => solveLoop fuel st'

/-- The initial search state of solve: one frame for the input board, an
empty path, and an empty visited set. -/
def initState (b : Board) : SearchState := ⟨[⟨b, getAllValidMoves b, 0⟩], [], ∅⟩

/-- solve: return the empty path for an already-won board, otherwise run
the search loop. -/
def solveFuel (fuel : Nat) (b : Board) : SolveResult :=
  if b.hasWon then .found [] else solveLoop fuel (initState b)

/-- Execute a sequence of moves from a board, failing if any executeMove
fails (the replay loop at the end of main). -/
def runMoves (b : Board) (ms : List Move) : Option Board :=
  ms.foldlM executeMove b

end Kabufuda

namespace Kabufuda

/-- A valid board one size-4 move away from winning: stack 0 holds the four
7s, every other stack is properly collapsed, suits 8 and 9 sit in collapsed
swap fields, and two swap fields are free. -/
def B1 : Board :=
  ⟨![SwapField.collapsed 8, SwapField.collapsed 9, SwapField.free, SwapField.free],
   ![⟨[7,7,7,7], false⟩, ⟨[0,0,0,0], true⟩, ⟨[1,1,1,1], true⟩, ⟨[2,2,2,2], true⟩,
     ⟨[3,3,3,3], true⟩, ⟨[4,4,4,4], true⟩, ⟨[5,5,5,5], true⟩, ⟨[6,6,6,6], true⟩]⟩

/-- A valid board with no valid moves at all: all four swap fields Locked,
no stack empty or collapsed, and the eight top cards pairwise distinct. -/
def NM : Board :=
  ⟨![SwapField.locked, SwapField.locked, SwapField.locked, SwapField.locked],
   ![⟨[0,8,8,8,8], false⟩, ⟨[1,9,9,9,9], false⟩, ⟨[2,3,0,0,0], false⟩,
     ⟨[3,2,1,1,1], false⟩, ⟨[4,3,3,2,2], false⟩, ⟨[5,6,4,4,4], false⟩,
     ⟨[6,7,5,5,5], false⟩, ⟨[7,7,7,6,6], false⟩]⟩

/-- A valid board whose stack 0 is a properly collapsed run of four 3s and
whose stack 1 is empty. -/
def B3 : Board :=
  ⟨![SwapField.locked, SwapField.locked, SwapField.locked, SwapField.locked],
   ![⟨[3,3,3,3], true⟩, ⟨[], false⟩, ⟨[1,1,1,1,0,0,0,0], false⟩,
     ⟨[4,4,4,4,2,2,2,2], false⟩, ⟨[6,6,6,6,5,5,5,5], false⟩,
     ⟨[8,8,8,8,7,7,7,7], false⟩, ⟨[9,9,9,9], false⟩, ⟨[], false⟩]⟩

/-- A valid board (Board::isValid only counts cards) whose stack 0 carries
the collapsed flag while holding the two cards [1,2] with top card 2, and
whose stack 1 has top card 2 as well. -/
def B7 : Board :=
  ⟨![SwapField.locked, SwapField.locked, SwapField.locked, SwapField.locked],
   ![⟨[2,1], true⟩, ⟨[2], false⟩, ⟨[1,1,1,0,0,0,0], false⟩,
     ⟨[3,3,3,3,2,2], false⟩, ⟨[5,5,5,5,4,4,4,4], false⟩,
     ⟨[7,7,7,7,6,6,6,6], false⟩, ⟨[9,9,9,9,8,8,8,8], false⟩, ⟨[], false⟩]⟩

/-- A valid board with no Locked swap field, swap 0 Occupied by a 5, and
stack 0 holding three 5s: moving the swap's card onto stack 0 collapses the
stack and triggers the unlock. -/
def B10 : Board :=
  ⟨![SwapField.occupied 5, SwapField.free, SwapField.free, SwapField.free],
   ![⟨[5,5,5], false⟩, ⟨[1,1,1,1,0,0,0,0], false⟩, ⟨[3,3,3,3,2,2,2,2], false⟩,
     ⟨[6,6,6,6,4,4,4,4], false⟩, ⟨[8,8,8,8,7,7,7,7], false⟩,
     ⟨[9,9,9,9], false⟩, ⟨[], false⟩, ⟨[], false⟩]⟩

/-- A valid board with no Locked swap field where the field-to-field move
of one 5 from stack 0 onto stack 1 collapses stack 1 and triggers the
unlock. -/
def BW : Board :=
  ⟨![SwapField.free, SwapField.free, SwapField.free, SwapField.free],
   ![⟨[5], false⟩, ⟨[5,5,5], false⟩, ⟨[1,1,1,1,0,0,0,0], false⟩,
     ⟨[3,3,3,3,2,2,2,2], false⟩, ⟨[6,6,6,6,4,4,4,4], false⟩,
     ⟨[8,8,8,8,7,7,7,7], false⟩, ⟨[9,9,9,9], false⟩, ⟨[], false⟩]⟩

/-- The board produced by executing the move of BW: stack 0 emptied,
stack 1 collapsed on the four 5s, swaps untouched. -/
def BWafter : Board :=
  ⟨![SwapField.free, SwapField.free, SwapField.free, SwapField.free],
   ![⟨[], false⟩, ⟨[5,5,5,5], true⟩, ⟨[1,1,1,1,0,0,0,0], false⟩,
     ⟨[3,3,3,3,2,2,2,2], false⟩, ⟨[6,6,6,6,4,4,4,4], false⟩,
     ⟨[8,8,8,8,7,7,7,7], false⟩, ⟨[9,9,9,9], false⟩, ⟨[], false⟩]⟩

/-- The correspondence between solve's frame stack and its accumulated
path: the stack is nonempty, one frame longer than the path, and the board
of the i-th frame from the top is the one reached by replaying all but the
last i moves of the path from the root board. -/
def StackInv (b : Board) (st : SearchState) : Prop :=
  st.stack ≠ [] ∧ st.stack.length = st.move_stack.length + 1 ∧
  ∀ i (h : i < st.stack.length),
    runMoves b ((st.move_stack.drop i).reverse) = some (st.stack.get ⟨i, h⟩).b

/-- Injective numeric code of a card list (base 11, empty = 0). -/
def encList : List Card → Nat
  | [] => 0
  | c :: l => 11 * encList l + (c.val + 1)

/-- Numeric code of a swap field. -/
def swapCodeN : SwapField → Fin 44
  | .locked => ⟨0, by omega⟩
  | .free => ⟨1, by omega⟩
  | .occupied c => ⟨2 + c.val, by have := c.isLt; omega⟩
  | .collapsed c => ⟨22 + c.val, by have := c.isLt; omega⟩

/-- The finite codomain of the board code: every board with 40 cards in
total embeds into it injectively. -/
abbrev BoardCodeT : Type := (Fin 8 → Fin (11 ^ 40) × Bool) × (Fin 4 → Fin 44)

/-- Injective (on 40-card boards) code of a board. -/
def boardCode (b : Board) : BoardCodeT :=
  (fun i => (⟨min (encList (b.field i).cards) (11 ^ 40 - 1),
      by have hp : 0 < 11 ^ 40 := Nat.pos_pow_of_pos 40 (by omega); omega⟩,
    (b.field i).collapsed),
   fun j => swapCodeN (b.swaps j))

/-- The number of board codes: an upper bound on the size of the visited
set along any search from a 40-card board. -/
def NBoards : Nat := Fintype.card BoardCodeT

/-- Weight of one search frame: its remaining move count plus one. -/
def frameWeight (f : Frame) : Nat := 1 + (f.valid_moves.length - f.current_move)

/-- Weight of the frame stack. -/
def stackWeight (l : List Frame) : Nat := (l.map frameWeight).sum

/-- Termination measure of a search state: unvisited board codes weighted
above the stack weight.  Every loop iteration strictly decreases it. -/
def mu (st : SearchState) : Nat :=
  (NBoards - st.boards.card) * 6000 + stackWeight st.stack

/-- Invariant of the search from a valid board: every visited board has 40
cards (it passed executeMove's final isValid assert) and every frame's
move list is bounded. -/
def TInv (st : SearchState) : Prop :=
  (∀ bd ∈ st.boards, bd.totalCards = 40) ∧
  (∀ f ∈ st.stack, f.valid_moves.length ≤ 5760)

lemma isOccupied_eq_false_iff (s : SwapField) : s.isOccupied = false ↔ ∀ c, s ≠ .occupied c := by
  cases s <;> simp [SwapField.isOccupied]

/-- C6: hasWon is true iff every field stack is empty or collapsed and no
swap field is Occupied. -/
theorem C6_hasWon_iff (b : Board) :
    b.hasWon = true ↔
      ((∀ i : Fin 8, (b.field i).cards = [] ∨ (b.field i).collapsed = true) ∧
        ∀ j : Fin 4, ∀ c : Card, b.swaps j ≠ SwapField.occupied c) := by
  simp [Board.hasWon, isOccupied_eq_false_iff]

/-- C8: the context-free move check, spelled out. -/
theorem C8_moveIsValid_iff (m : Move) :
    moveIsValid m = true ↔
      (-4 ≤ m.from_ ∧ m.from_ < 8 ∧ -4 ≤ m.to_ ∧ m.to_ < 8 ∧
        1 ≤ m.size ∧ m.size ≤ 4 ∧ m.from_ ≠ m.to_ ∧
        (m.from_ < 0 → m.size = 1) ∧ (m.to_ < 0 → m.size = 1 ∨ m.size = 4)) := by
  simp only [moveIsValid, Bool.and_eq_true, decide_eq_true_eq, Bool.or_eq_true]
  split_ifs with h1 h2 h2 <;> simp_all <;> omega

lemma takeWhile_all_eq {p : Card → Bool} {l : List Card} (h : ∀ a ∈ l, p a = true) :
    l.takeWhile p = l := by
  induction l with
  | nil => rfl
  | cons a l ih =>
    rw [List.takeWhile_cons, h a (List.mem_cons_self a l)]
    simp [ih (fun x hx => h x (List.mem_cons_of_mem a hx))]

lemma takeWhile_length_eq_iff {p : Card → Bool} {l : List Card} :
    (l.takeWhile p).length = l.length ↔ ∀ a ∈ l, p a = true := by
  constructor
  · intro h
    have hpre := List.takeWhile_prefix (l := l) p
    have heq : l.takeWhile p = l := List.IsPrefix.eq_of_length hpre h
    intro a ha
    exact List.mem_takeWhile_imp (heq ▸ ha)
  · intro h
    rw [takeWhile_all_eq h]

lemma getTopSize_eq_length_iff (s : CardStack) (hne : s.cards ≠ []) :
    s.getTopSize = s.cards.length ↔ ∀ c ∈ s.cards, ∀ d ∈ s.cards, c = d := by
  obtain ⟨cards, coll⟩ := s
  cases cards with
  | nil => simp at hne
  | cons t l =>
    show ((t :: l).takeWhile (fun c => c = t)).length = (t :: l).length ↔ _
    rw [takeWhile_length_eq_iff]
    constructor
    · intro h c hc d hd
      have hct : c = t := by simpa using h c hc
      have hdt : d = t := by simpa using h d hd
      rw [hct, hdt]
    · intro h a ha
      simpa using h a ha t (List.mem_cons_self t l)

/-- C9: for a non-collapsed stack, tryCollapse reports collapse (and sets
the flag) exactly when the stack holds 4 cards that are all equal. -/
theorem C9_tryCollapse_iff (s : CardStack) (h : s.collapsed = false) :
    s.tryCollapse.1.collapsed = s.tryCollapse.2 ∧
    (s.tryCollapse.2 = true ↔
      (s.cards.length = 4 ∧ ∀ c ∈ s.cards, ∀ d ∈ s.cards, c = d)) := by
  unfold CardStack.tryCollapse
  split_ifs with hc
  · obtain ⟨h4, htop⟩ := hc
    have hne : s.cards ≠ [] := by
      intro hnil
      rw [hnil] at h4
      simp at h4
    refine ⟨rfl, ?_⟩
    simp only [true_iff, iff_true]
    exact ⟨h4, (getTopSize_eq_length_iff s hne).mp (by rw [htop, h4])⟩
  · refine ⟨rfl, ?_⟩
    rw [h]
    simp only [Bool.false_eq_true, false_iff]
    rintro ⟨h4, hall⟩
    have hne : s.cards ≠ [] := by
      intro hnil
      rw [hnil] at h4
      simp at h4
    exact hc ⟨h4, by rw [(getTopSize_eq_length_iff s hne).mpr hall, h4]⟩

/-- C9 witness: the 5-card scenario stack reports no collapse, and the
4-card all-equal stack reports collapse. -/
theorem C9_witness :
    ((CardStack.mk [2,3,3,3,3] false).tryCollapse.2 = true ↔
      ((CardStack.mk [2,3,3,3,3] false).cards.length = 4 ∧
        ∀ c ∈ (CardStack.mk [2,3,3,3,3] false).cards,
          ∀ d ∈ (CardStack.mk [2,3,3,3,3] false).cards, c = d)) ∧
    (CardStack.mk [2,3,3,3,3] false).tryCollapse.2 = false ∧
    (CardStack.mk [3,3,3,3] false).tryCollapse.2 = true := by
  refine ⟨(C9_tryCollapse_iff (CardStack.mk [2,3,3,3,3] false) rfl).2, by decide, by decide⟩

/-- C2: the search loop of solve, run on the valid unsolvable board NM
(which has no valid moves, so no won board is reachable), exhausts its
(empty) move list at the root frame and then executes
`move_stack.pop_back()` with `move_stack` empty -- popping an empty vector,
which is undefined behaviour, instead of returning an empty move list. -/
theorem C2_exhausted_search_pops_empty_path :
    NM.isValid = true ∧ NM.hasWon = false ∧ getAllValidMoves NM = [] ∧
      solveFuel 2 NM = SolveResult.popEmpty := by
  decide

/-- C3 counterexample: on the valid board B3 the move of one card off the
properly collapsed stack 0 onto the empty stack 1 passes moveIsValid and
moveIsValidForBoard, yet executeMove fails on the
`assert(!isCollapsed())` inside popCards. -/
theorem C3_counterexample :
    B3.isValid = true ∧ moveIsValid (Move.mk 0 1 1) = true ∧
      moveIsValidForBoard B3 (Move.mk 0 1 1) = true ∧
      executeMove B3 (Move.mk 0 1 1) = none := by
  decide

/-- C7 counterexample: B7 satisfies isValid, yet getAllValidMoves emits a
move whose `to` slot is the collapsed stack 0 (isValid only counts cards
and does not force a collapsed stack to hold 4 equal cards). -/
theorem C7_counterexample :
    B7.isValid = true ∧ Move.mk 1 0 1 ∈ getAllValidMoves B7 ∧
      (B7.getField (Move.mk 1 0 1).to_).collapsed = true := by
  decide

/-- C10 counterexample: B10 has no Locked swap field, and executing the
move from swap 0 onto stack 0 collapses the stack (so the unlock was
triggered), yet swap 0 went from Occupied to Free during the move. -/
theorem C10_counterexample :
    (∀ j : Fin 4, B10.swaps j ≠ SwapField.locked) ∧
      (B10.field 0).collapsed = false ∧ B10.swaps 0 = SwapField.occupied 5 ∧
      (executeMove B10 (Move.mk (-1) 0 1)).map
        (fun b => ((b.field 0).collapsed, decide (b.swaps 0 = B10.swaps 0))) =
        some (true, false) := by
  decide

lemma setField_swaps (b : Board) (i : Int) (s : CardStack) :
    (b.setField i s).swaps = b.swaps := by
  unfold Board.setField
  split <;> rfl

lemma setSwap_field (b : Board) (i : Int) (s : SwapField) :
    (b.setSwap i s).field = b.field := by
  unfold Board.setSwap
  split <;> rfl

lemma unlockSwap_field (b : Board) : b.unlockSwap.field = b.field := by
  unfold Board.unlockSwap
  split <;> rfl

lemma unlockSwap_of_noLocked (b : Board)
    (h : ∀ j : Fin 4, b.swaps j ≠ SwapField.locked) : b.unlockSwap = b := by
  unfold Board.unlockSwap
  have hfind : (List.finRange 4).find? (fun j => (b.swaps j).isLocked) = none := by
    apply List.find?_eq_none.mpr
    intro j _
    have hj := h j
    cases hc : b.swaps j
    · exact absurd hc hj
    all_goals simp [SwapField.isLocked]
  rw [hfind]

lemma executeMove_eq_some {b : Board} {m : Move} {b' : Board} :
    executeMove b m = some b' ↔
      moveIsValid m = true ∧ moveIsValidForBoard b m = true ∧ b'.isValid = true ∧
      ∃ b1, removeFrom b m = some b1 ∧
        pushTo b1 (fromSlotCard b m.from_) m = some b' := by
  unfold executeMove
  cases hmv : moveIsValid m
  · simp
  · cases hmb : moveIsValidForBoard b m
    · simp
    · simp only [Bool.true_eq_false, if_false, true_and, Option.bind_eq_some]
      constructor
      · rintro ⟨b1, h1, b2, h2, h3⟩
        by_cases hv : b2.isValid = true
        · rw [if_pos hv] at h3
          obtain rfl : b2 = b' := by simpa using h3
          exact ⟨hv, b1, h1, h2⟩
        · rw [if_neg hv] at h3
          exact absurd h3 (by simp)
      · rintro ⟨hv, b1, h1, h2⟩
        exact ⟨b1, h1, b', h2, by simp [hv]⟩

lemma removeFrom_eq_some_field {b : Board} {m : Move} {b1 : Board} (hf : 0 ≤ m.from_) :
    removeFrom b m = some b1 ↔
      ∃ s, (b.getField m.from_).popCards m.size.toNat = some s ∧
        b.setField m.from_ s = b1 := by
  unfold removeFrom
  rw [if_neg (not_lt.mpr hf)]
  simp [Option.map_eq_some']

lemma removeFrom_eq_some_swap {b : Board} {m : Move} {b1 : Board} (hf : m.from_ < 0) :
    removeFrom b m = some b1 ↔
      ∃ sw, (b.getSwap m.from_).popCard = some sw ∧ b.setSwap m.from_ sw = b1 := by
  unfold removeFrom
  rw [if_pos hf]
  simp [Option.map_eq_some']

lemma pushTo_eq_some_swap {b1 : Board} {c : Card} {m : Move} {b2 : Board} (ht : m.to_ < 0) :
    pushTo b1 c m = some b2 ↔
      ∃ sw, (b1.getSwap m.to_).pushStack c m.size = some sw ∧
        b1.setSwap m.to_ sw = b2 := by
  unfold pushTo
  rw [if_pos ht]
  simp [Option.map_eq_some']

lemma pushTo_eq_some_field {b1 : Board} {c : Card} {m : Move} {b2 : Board} (ht : 0 ≤ m.to_) :
    pushTo b1 c m = some b2 ↔
      ∃ s, (b1.getField m.to_).pushStackN c m.size.toNat = some s ∧
        (if s.tryCollapse.2 then (b1.setField m.to_ s.tryCollapse.1).unlockSwap
          else b1.setField m.to_ s.tryCollapse.1) = b2 := by
  unfold pushTo
  rw [if_neg (not_lt.mpr ht)]
  simp [Option.map_eq_some']

/-- C10 (amended): on a board with no Locked swap field, unlockSwap leaves
all four swap fields unchanged; hence when a move between two field stacks
triggers the unlock (or not) on such a board, every swap field's state and
card are the same after the move as before it.  (The original claim,
which also covers moves whose from slot is a swap field, is refuted by
C10_counterexample: popCard itself changes that swap field.) -/
theorem C10_unlock_saturation :
    (∀ b : Board, (∀ j : Fin 4, b.swaps j ≠ SwapField.locked) → b.unlockSwap = b) ∧
    ∀ (b : Board) (m : Move) (b' : Board),
      (∀ j : Fin 4, b.swaps j ≠ SwapField.locked) → 0 ≤ m.from_ → 0 ≤ m.to_ →
      executeMove b m = some b' → b'.swaps = b.swaps := by
  refine ⟨unlockSwap_of_noLocked, ?_⟩
  intro b m b' hnl hf ht hE
  obtain ⟨-, -, -, b1, hrm, hps⟩ := executeMove_eq_some.mp hE
  obtain ⟨s1, -, rfl⟩ := (removeFrom_eq_some_field hf).mp hrm
  obtain ⟨s2, -, rfl⟩ := (pushTo_eq_some_field ht).mp hps
  have h1 : (b.setField m.from_ s1).swaps = b.swaps := setField_swaps b m.from_ s1
  split
  · rw [unlockSwap_of_noLocked]
    · rw [setField_swaps, h1]
    · intro j
      rw [setField_swaps, h1]
      exact hnl j
  · rw [setField_swaps, h1]

lemma option_eq_some_of_map {α : Type} [DecidableEq α] {x : Option α} {a : α}
    (h : x.map (fun b => decide (b = a)) = some true) : x = some a := by
  cases x with
  | none => simp at h
  | some b =>
    simp only [Option.map_some', Option.some_inj] at h
    rw [of_decide_eq_true h]

/-- C10 witness: on the valid board BW (no Locked swap), the field-to-field
move that collapses stack 1 leaves every swap field unchanged. -/
theorem C10_witness :
    (∀ j : Fin 4, BW.swaps j ≠ SwapField.locked) ∧
      executeMove BW (Move.mk 0 1 1) = some BWafter ∧
      BWafter.swaps = BW.swaps := by
  have hE : executeMove BW (Move.mk 0 1 1) = some BWafter :=
    option_eq_some_of_map (by decide)
  refine ⟨by decide, hE, ?_⟩
  exact C10_unlock_saturation.2 BW (Move.mk 0 1 1) BWafter (by decide) (by decide)
    (by decide) hE

lemma updAt_ne {n : Nat} {α : Type} (f : Fin n → α) (i j : Fin n) (v : α) (h : j ≠ i) :
    Board.updAt f i v j = f j := by
  simp [Board.updAt, h]

lemma updAt_self {n : Nat} {α : Type} (f : Fin n → α) (i : Fin n) (v : α) :
    Board.updAt f i v i = v := by
  simp [Board.updAt]

lemma getField_setField_self {b : Board} {i : Int} {s : CardStack} (h : 0 ≤ i ∧ i < 8) :
    (b.setField i s).getField i = s := by
  unfold Board.setField Board.getField
  rw [dif_pos h, dif_pos h]
  exact updAt_self _ _ _

lemma getField_setField_ne {b : Board} {i j : Int} {s : CardStack} (hij : i ≠ j) :
    (b.setField i s).getField j = b.getField j := by
  unfold Board.setField Board.getField
  by_cases hi : 0 ≤ i ∧ i < 8
  · rw [dif_pos hi]
    by_cases hj : 0 ≤ j ∧ j < 8
    · rw [dif_pos hj, dif_pos hj]
      exact updAt_ne _ _ _ _ (by simp [Fin.ext_iff]; omega)
    · rw [dif_neg hj, dif_neg hj]
  · rw [dif_neg hi]

lemma getSwap_setField {b : Board} {i : Int} {s : CardStack} {j : Int} :
    (b.setField i s).getSwap j = b.getSwap j := by
  unfold Board.setField Board.getSwap
  by_cases hi : 0 ≤ i ∧ i < 8
  · rw [dif_pos hi]
  · rw [dif_neg hi]

lemma getField_setSwap {b : Board} {i : Int} {s : SwapField} {j : Int} :
    (b.setSwap i s).getField j = b.getField j := by
  unfold Board.setSwap Board.getField
  by_cases hi : -4 ≤ i ∧ i < 0
  · rw [dif_pos hi]
  · rw [dif_neg hi]

lemma getSwap_setSwap_self {b : Board} {i : Int} {s : SwapField} (h : -4 ≤ i ∧ i < 0) :
    (b.setSwap i s).getSwap i = s := by
  unfold Board.setSwap Board.getSwap
  rw [dif_pos h, dif_pos h]
  exact updAt_self _ _ _

lemma getSwap_setSwap_ne {b : Board} {i j : Int} {s : SwapField} (hij : i ≠ j) :
    (b.setSwap i s).getSwap j = b.getSwap j := by
  unfold Board.setSwap Board.getSwap
  by_cases hi : -4 ≤ i ∧ i < 0
  · rw [dif_pos hi]
    by_cases hj : -4 ≤ j ∧ j < 0
    · rw [dif_pos hj, dif_pos hj]
      exact updAt_ne _ _ _ _ (by simp [Fin.ext_iff]; omega)
    · rw [dif_neg hj, dif_neg hj]
  · rw [dif_neg hi]

lemma sum_comp_updAt {n : Nat} {α : Type} (f : Fin n → α) (i : Fin n) (v : α)
    (g : α → Nat) :
    (∑ j : Fin n, g (Board.updAt f i v j)) + g (f i) = (∑ j : Fin n, g (f j)) + g v := by
  have hmem : i ∈ (Finset.univ : Finset (Fin n)) := Finset.mem_univ i
  rw [Finset.sum_eq_sum_diff_singleton_add hmem (fun j => g (Board.updAt f i v j)),
    Finset.sum_eq_sum_diff_singleton_add hmem (fun j => g (f j))]
  have hrest : ∀ j ∈ Finset.univ \ {i}, g (Board.updAt f i v j) = g (f j) := by
    intro j hj
    rw [updAt_ne f i j v (by simpa using (Finset.mem_sdiff.mp hj).2)]
  rw [Finset.sum_congr rfl hrest, updAt_self]
  omega

lemma countCard_setField {b : Board} {i : Int} {s : CardStack} (h : 0 ≤ i ∧ i < 8)
    (x : Card) :
    Board.countCard x (b.setField i s) + (b.getField i).cards.count x =
      Board.countCard x b + s.cards.count x := by
  unfold Board.countCard Board.getField
  unfold Board.setField
  rw [dif_pos h, dif_pos h]
  have := sum_comp_updAt b.field ⟨i.toNat, by omega⟩ s (fun t => t.cards.count x)
  simp only [Board.updAt] at this ⊢
  omega

lemma totalCards_setField {b : Board} {i : Int} {s : CardStack} (h : 0 ≤ i ∧ i < 8) :
    (b.setField i s).totalCards + (b.getField i).cards.length =
      b.totalCards + s.cards.length := by
  unfold Board.totalCards Board.getField
  unfold Board.setField
  rw [dif_pos h, dif_pos h]
  have := sum_comp_updAt b.field ⟨i.toNat, by omega⟩ s (fun t => t.cards.length)
  simp only [Board.updAt] at this ⊢
  omega

lemma countCard_setSwap {b : Board} {i : Int} {s : SwapField} (h : -4 ≤ i ∧ i < 0)
    (x : Card) :
    Board.countCard x (b.setSwap i s) + Board.swapCount x (b.getSwap i) =
      Board.countCard x b + Board.swapCount x s := by
  unfold Board.countCard Board.getSwap
  unfold Board.setSwap
  rw [dif_pos h, dif_pos h]
  have := sum_comp_updAt b.swaps ⟨(-i - 1).toNat, by omega⟩ s (fun t => Board.swapCount x t)
  simp only [Board.updAt] at this ⊢
  omega

lemma totalCards_setSwap {b : Board} {i : Int} {s : SwapField} (h : -4 ≤ i ∧ i < 0) :
    (b.setSwap i s).totalCards + (b.getSwap i).size =
      b.totalCards + s.size := by
  unfold Board.totalCards Board.getSwap
  unfold Board.setSwap
  rw [dif_pos h, dif_pos h]
  have := sum_comp_updAt b.swaps ⟨(-i - 1).toNat, by omega⟩ s (fun t => t.size)
  simp only [Board.updAt] at this ⊢
  omega

lemma countCard_unlockSwap (b : Board) (x : Card) :
    Board.countCard x b.unlockSwap = Board.countCard x b := by
  unfold Board.unlockSwap
  cases hfind : (List.finRange 4).find? (fun j => (b.swaps j).isLocked) with
  | none => rfl
  | some j =>
    have hjl : b.swaps j = SwapField.locked := by
      have := List.find?_some hfind
      cases hc : b.swaps j
      · rfl
      all_goals rw [hc] at this; simp [SwapField.isLocked] at this
    unfold Board.countCard
    simp only
    have := sum_comp_updAt b.swaps j SwapField.free (fun t => Board.swapCount x t)
    rw [hjl] at this
    simp only [Board.swapCount] at this ⊢
    omega

lemma totalCards_unlockSwap (b : Board) :
    b.unlockSwap.totalCards = b.totalCards := by
  unfold Board.unlockSwap
  cases hfind : (List.finRange 4).find? (fun j => (b.swaps j).isLocked) with
  | none => rfl
  | some j =>
    have hjl : b.swaps j = SwapField.locked := by
      have := List.find?_some hfind
      cases hc : b.swaps j
      · rfl
      all_goals rw [hc] at this; simp [SwapField.isLocked] at this
    unfold Board.totalCards
    simp only
    have := sum_comp_updAt b.swaps j SwapField.free (fun t => t.size)
    rw [hjl] at this
    simp only [SwapField.size] at this ⊢
    omega

lemma isValid_iff (b : Board) :
    b.isValid = true ↔ b.totalCards = 40 ∧ ∀ x : Card, Board.countCard x b = 4 := by
  unfold Board.isValid
  simp

lemma isOccupied_iff {s : SwapField} : s.isOccupied = true ↔ ∃ d, s = .occupied d := by
  cases s <;> simp [SwapField.isOccupied]

lemma isFree_iff {s : SwapField} : s.isFree = true ↔ s = .free := by
  cases s <;> simp [SwapField.isFree]

lemma tryCollapse_cards (s : CardStack) : s.tryCollapse.1.cards = s.cards := by
  unfold CardStack.tryCollapse
  split <;> rfl

lemma getTopSize_le_length (s : CardStack) : s.getTopSize ≤ s.cards.length := by
  unfold CardStack.getTopSize
  split
  · omega
  · exact (List.takeWhile_prefix _).length_le

lemma getTopSize_pos (s : CardStack) (h : s.cards ≠ []) : 1 ≤ s.getTopSize := by
  obtain ⟨cards, coll⟩ := s
  cases cards with
  | nil => simp at h
  | cons t l =>
    show 1 ≤ ((t :: l).takeWhile (fun c => c = t)).length
    rw [List.takeWhile_cons]
    simp

lemma take_topRun (s : CardStack) (n : Nat) (hn : n ≤ s.getTopSize) :
    s.cards.take n = List.replicate n s.getTopD := by
  obtain ⟨cards, coll⟩ := s
  cases cards with
  | nil =>
    have : n = 0 := by
      have h0 : CardStack.getTopSize ⟨[], coll⟩ = 0 := rfl
      omega
    simp [this]
  | cons t l =>
    have htop : CardStack.getTopD ⟨t :: l, coll⟩ = t := rfl
    have hts : CardStack.getTopSize ⟨t :: l, coll⟩ =
        ((t :: l).takeWhile (fun c => c = t)).length := rfl
    rw [htop]
    have hpre := List.takeWhile_prefix (l := t :: l) (fun c => c = t)
    obtain ⟨rest, hsplit⟩ := hpre
    have hlen : n ≤ ((t :: l).takeWhile (fun c => c = t)).length := by omega
    have hALL : ∀ a ∈ (t :: l).takeWhile (fun c => c = t), a = t := by
      intro a ha
      have := List.mem_takeWhile_imp ha
      simpa using this
    have hrepl : (t :: l).takeWhile (fun c => c = t) =
        List.replicate ((t :: l).takeWhile (fun c => c = t)).length t :=
      List.eq_replicate_of_mem hALL
    calc (t :: l).take n
        = (((t :: l).takeWhile (fun c => c = t)) ++ rest).take n := by rw [hsplit]
      _ = ((t :: l).takeWhile (fun c => c = t)).take n :=
          List.take_append_of_le_length hlen
      _ = (List.replicate ((t :: l).takeWhile (fun c => c = t)).length t).take n := by
          rw [← hrepl]
      _ = List.replicate n t := by
          rw [List.take_replicate t n ((t :: l).takeWhile (fun c => c = t)).length]
          congr 1
          omega

lemma count_replicate_card (x c : Card) (n : Nat) :
    (List.replicate n c).count x = if c = x then n else 0 := by
  rw [List.count_replicate]
  by_cases h : c = x
  · simp [h]
  · simp [h]

lemma count_drop_split (s : CardStack) (n : Nat) (hn : n ≤ s.getTopSize) (x : Card) :
    s.cards.count x = (if s.getTopD = x then n else 0) + (s.cards.drop n).count x := by
  conv_lhs => rw [← List.take_append_drop n s.cards]
  rw [List.count_append, take_topRun s n hn, count_replicate_card]

lemma length_drop_eq (l : List Card) (n : Nat) : (l.drop n).length = l.length - n :=
  List.length_drop n l

lemma removeFrom_spec (b : Board) (m : Move)
    (hf4 : -4 ≤ m.from_) (hf8 : m.from_ < 8) (hs1 : 1 ≤ m.size)
    (h2a : (if m.from_ < 0 then (b.getSwap m.from_).isOccupied && decide (m.size = 1)
      else decide (m.size ≤ ((b.getField m.from_).cards.length : Int))) = true)
    (h2c : (if 1 < m.size then
      decide (m.size ≤ ((b.getField m.from_).getTopSize : Int)) else true) = true)
    (hfc : 0 ≤ m.from_ → (b.getField m.from_).collapsed = false) :
    ∃ b1, removeFrom b m = some b1 ∧
      (∀ x : Card, Board.countCard x b1 +
        (if fromSlotCard b m.from_ = x then m.size.toNat else 0) = Board.countCard x b) ∧
      b1.totalCards + m.size.toNat = b.totalCards ∧
      (∀ j : Int, j ≠ m.from_ → b1.getField j = b.getField j) ∧
      (∀ j : Int, j ≠ m.from_ → b1.getSwap j = b.getSwap j) := by
  by_cases hsf : m.from_ < 0
  · rw [if_pos hsf] at h2a
    obtain ⟨hocc, hsz⟩ : (b.getSwap m.from_).isOccupied = true ∧ decide (m.size = 1) = true := by
      simpa using h2a
    obtain ⟨d, hd⟩ := isOccupied_iff.mp hocc
    have hsz1 : m.size = 1 := by simpa using hsz
    have hrange : -4 ≤ m.from_ ∧ m.from_ < 0 := ⟨hf4, hsf⟩
    have hc : fromSlotCard b m.from_ = d := by
      unfold fromSlotCard
      rw [if_pos hsf, hd]
      rfl
    refine ⟨b.setSwap m.from_ .free, ?_, ?_, ?_, ?_, ?_⟩
    · unfold removeFrom
      rw [if_pos hsf, hd]
      rfl
    · intro x
      have := countCard_setSwap (b := b) (s := SwapField.free) hrange x
      rw [hd] at this
      simp only [Board.swapCount] at this
      rw [hc, hsz1]
      simp only [Int.toNat_one]
      omega
    · have := totalCards_setSwap (b := b) (s := SwapField.free) hrange
      rw [hd] at this
      simp only [SwapField.size] at this
      rw [hsz1]
      simp only [Int.toNat_one]
      omega
    · intro j _
      exact getField_setSwap
    · intro j hj
      exact getSwap_setSwap_ne (Ne.symm hj)
  · push_neg at hsf
    rw [if_neg (not_lt.mpr hsf)] at h2a
    have hlen : m.size ≤ ((b.getField m.from_).cards.length : Int) := by simpa using h2a
    have hrange : 0 ≤ m.from_ ∧ m.from_ < 8 := ⟨hsf, hf8⟩
    have hcoll := hfc hsf
    set s0 := b.getField m.from_ with hs0
    have hn : m.size.toNat ≤ s0.getTopSize := by
      by_cases hgt : 1 < m.size
      · rw [if_pos hgt] at h2c
        have := of_decide_eq_true h2c
        omega
      · have h1 : m.size = 1 := by omega
        have hne : s0.cards ≠ [] := by
          intro hnil
          rw [hnil] at hlen
          simp at hlen
          omega
        have := getTopSize_pos s0 hne
        omega
    have hpop : s0.popCards m.size.toNat = some ⟨s0.cards.drop m.size.toNat, s0.collapsed⟩ := by
      unfold CardStack.popCards
      rw [hcoll]
      simp only [Bool.false_eq_true, if_false]
      rw [if_pos hn]
    have hc : fromSlotCard b m.from_ = s0.getTopD := by
      unfold fromSlotCard
      rw [if_neg (not_lt.mpr hsf)]
    refine ⟨b.setField m.from_ ⟨s0.cards.drop m.size.toNat, s0.collapsed⟩, ?_, ?_, ?_, ?_, ?_⟩
    · unfold removeFrom
      rw [if_neg (not_lt.mpr hsf), ← hs0, hpop]
      rfl
    · intro x
      have hset := countCard_setField (b := b)
        (s := (⟨s0.cards.drop m.size.toNat, s0.collapsed⟩ : CardStack)) hrange x
      rw [← hs0] at hset
      have hsplit := count_drop_split s0 m.size.toNat hn x
      rw [hc]
      simp only at hset
      omega
    · have hset := totalCards_setField (b := b)
        (s := (⟨s0.cards.drop m.size.toNat, s0.collapsed⟩ : CardStack)) hrange
      rw [← hs0] at hset
      have hdrop := length_drop_eq s0.cards m.size.toNat
      have hle : m.size.toNat ≤ s0.cards.length := by
        have := getTopSize_le_length s0
        omega
      simp only at hset
      omega
    · intro j hj
      exact getField_setField_ne (Ne.symm hj)
    · intro j _
      exact getSwap_setField

lemma moveIsValid_iff (m : Move) :
    moveIsValid m = true ↔
      (-4 ≤ m.from_ ∧ m.from_ < 8 ∧ -4 ≤ m.to_ ∧ m.to_ < 8 ∧
        1 ≤ m.size ∧ m.size ≤ 4 ∧ m.from_ ≠ m.to_ ∧
        (m.from_ < 0 → m.size = 1) ∧ (m.to_ < 0 → m.size = 1 ∨ m.size = 4)) := by
  simp only [moveIsValid, Bool.and_eq_true, decide_eq_true_eq, Bool.or_eq_true]
  split_ifs with h1 h2 h2 <;> simp_all <;> omega

lemma pushTo_spec (b1 : Board) (c : Card) (m : Move)
    (ht4 : -4 ≤ m.to_) (ht8 : m.to_ < 8)
    (htswap : m.to_ < 0 → m.size = 1 ∨ m.size = 4)
    (hfree : m.to_ < 0 → (b1.getSwap m.to_).isFree = true)
    (hstack : 0 ≤ m.to_ → (b1.getField m.to_).collapsed = false) :
    ∃ b2, pushTo b1 c m = some b2 ∧
      (∀ x : Card, Board.countCard x b2 =
        Board.countCard x b1 + (if c = x then m.size.toNat else 0)) ∧
      b2.totalCards = b1.totalCards + m.size.toNat := by
  by_cases hts : m.to_ < 0
  · have hrange : -4 ≤ m.to_ ∧ m.to_ < 0 := ⟨ht4, hts⟩
    have hfr := isFree_iff.mp (hfree hts)
    rcases htswap hts with hsz | hsz
    · have hpush : (b1.getSwap m.to_).pushStack c m.size = some (.occupied c) := by
        unfold SwapField.pushStack
        rw [if_pos hsz, hfr]
      refine ⟨b1.setSwap m.to_ (.occupied c), ?_, ?_, ?_⟩
      · unfold pushTo
        rw [if_pos hts, hpush]
        rfl
      · intro x
        have hset := countCard_setSwap (b := b1) (s := SwapField.occupied c) hrange x
        rw [hfr] at hset
        simp only [Board.swapCount] at hset
        rw [hsz]
        simp only [Int.toNat_one]
        omega
      · have hset := totalCards_setSwap (b := b1) (s := SwapField.occupied c) hrange
        rw [hfr] at hset
        simp only [SwapField.size] at hset
        rw [hsz]
        simp only [Int.toNat_one]
        omega
    · have hpush : (b1.getSwap m.to_).pushStack c m.size = some (.collapsed c) := by
        unfold SwapField.pushStack
        rw [hsz, if_neg (by omega : ¬(4 : Int) = 1), if_pos rfl, hfr]
      refine ⟨b1.setSwap m.to_ (.collapsed c), ?_, ?_, ?_⟩
      · unfold pushTo
        rw [if_pos hts, hpush]
        rfl
      · intro x
        have hset := countCard_setSwap (b := b1) (s := SwapField.collapsed c) hrange x
        rw [hfr] at hset
        simp only [Board.swapCount] at hset
        rw [hsz]
        have : ((4 : Int)).toNat = 4 := rfl
        rw [this]
        omega
      · have hset := totalCards_setSwap (b := b1) (s := SwapField.collapsed c) hrange
        rw [hfr] at hset
        simp only [SwapField.size] at hset
        rw [hsz]
        have : ((4 : Int)).toNat = 4 := rfl
        rw [this]
        omega
  · push_neg at hts
    have hrange : 0 ≤ m.to_ ∧ m.to_ < 8 := ⟨hts, ht8⟩
    have hcoll := hstack hts
    have hpushN : (b1.getField m.to_).pushStackN c m.size.toNat =
        some ⟨List.replicate m.size.toNat c ++ (b1.getField m.to_).cards,
          (b1.getField m.to_).collapsed⟩ := by
      unfold CardStack.pushStackN
      rw [hcoll]
      simp
    set s2 : CardStack := ⟨List.replicate m.size.toNat c ++ (b1.getField m.to_).cards,
      (b1.getField m.to_).collapsed⟩ with hs2
    refine ⟨if s2.tryCollapse.2 then (b1.setField m.to_ s2.tryCollapse.1).unlockSwap
      else b1.setField m.to_ s2.tryCollapse.1, ?_, ?_, ?_⟩
    · unfold pushTo
      rw [if_neg (not_lt.mpr hts), hpushN]
      rfl
    · intro x
      have hcards : s2.tryCollapse.1.cards = s2.cards := tryCollapse_cards s2
      have hset := countCard_setField (b := b1) (s := s2.tryCollapse.1) hrange x
      have hcnt : s2.tryCollapse.1.cards.count x =
          (if c = x then m.size.toNat else 0) + (b1.getField m.to_).cards.count x := by
        rw [hcards, hs2]
        show (List.replicate m.size.toNat c ++ (b1.getField m.to_).cards).count x = _
        rw [List.count_append, count_replicate_card]
      split
      · rw [countCard_unlockSwap]
        omega
      · omega
    · have hcards : s2.tryCollapse.1.cards = s2.cards := tryCollapse_cards s2
      have hset := totalCards_setField (b := b1) (s := s2.tryCollapse.1) hrange
      have hlen : s2.tryCollapse.1.cards.length =
          m.size.toNat + (b1.getField m.to_).cards.length := by
        rw [hcards, hs2]
        show (List.replicate m.size.toNat c ++ (b1.getField m.to_).cards).length = _
        rw [List.length_append, List.length_replicate]
      split
      · rw [totalCards_unlockSwap]
        omega
      · omega

/-- C3 (amended): for a valid board and a move passing both validity checks
that moreover does not name a collapsed stack as its from or to slot,
executeMove succeeds (no assertion fires) and the result is valid: 40 cards
in total and the same per-suit count (4 of each) as before.  (The original
claim, without the no-collapsed-slot proviso, is refuted by
C3_counterexample: both checks accept a size-1 move off a collapsed stack,
and popCards then asserts.) -/
theorem C3_executeMove_preserves (b : Board) (m : Move)
    (hv : b.isValid = true) (h1 : moveIsValid m = true)
    (h2 : moveIsValidForBoard b m = true)
    (hfc : 0 ≤ m.from_ → (b.getField m.from_).collapsed = false)
    (htc : 0 ≤ m.to_ → (b.getField m.to_).collapsed = false) :
    ∃ b', executeMove b m = some b' ∧ b'.isValid = true ∧ b'.totalCards = 40 ∧
      ∀ x : Card, Board.countCard x b' = Board.countCard x b := by
  obtain ⟨hf4, hf8, ht4, ht8, hs1, hs4, hne, hfswap, htswap⟩ := (moveIsValid_iff m).mp h1
  have h2' := h2
  simp only [moveIsValidForBoard, Bool.and_eq_true] at h2'
  obtain ⟨⟨h2a, h2b⟩, h2c⟩ := h2'
  obtain ⟨b1, hrm, hcnt1, htot1, hfld1, hswp1⟩ := removeFrom_spec b m hf4 hf8 hs1 h2a h2c hfc
  have hfree : m.to_ < 0 → (b1.getSwap m.to_).isFree = true := by
    intro hts
    rw [hswp1 m.to_ (Ne.symm hne)]
    rw [if_neg (not_le.mpr hts)] at h2b
    exact h2b
  have hstack1 : 0 ≤ m.to_ → (b1.getField m.to_).collapsed = false := by
    intro hts
    rw [hfld1 m.to_ (Ne.symm hne)]
    exact htc hts
  obtain ⟨b2, hps, hcnt2, htot2⟩ :=
    pushTo_spec b1 (fromSlotCard b m.from_) m ht4 ht8 htswap hfree hstack1
  obtain ⟨htot40, hcount4⟩ := (isValid_iff b).mp hv
  have hcntEq : ∀ x, Board.countCard x b2 = Board.countCard x b := by
    intro x
    have e1 := hcnt1 x
    have e2 := hcnt2 x
    omega
  have htotEq : b2.totalCards = 40 := by omega
  have hv2 : b2.isValid = true :=
    (isValid_iff b2).mpr ⟨htotEq, fun x => by rw [hcntEq x]; exact hcount4 x⟩
  exact ⟨b2, executeMove_eq_some.mpr ⟨h1, h2, hv2, b1, hrm, hps⟩, hv2, htotEq, hcntEq⟩

/-- C3 witness: the amended postcondition, instantiated on the valid board
B1 and its winning size-4 move to a free swap field. -/
theorem C3_witness :
    B1.isValid = true ∧ moveIsValid (Move.mk 0 (-4) 4) = true ∧
      moveIsValidForBoard B1 (Move.mk 0 (-4) 4) = true ∧
      ∃ b', executeMove B1 (Move.mk 0 (-4) 4) = some b' ∧ b'.isValid = true ∧
        b'.totalCards = 40 ∧ ∀ x : Card, Board.countCard x b' = Board.countCard x B1 :=
  ⟨by decide, by decide, by decide,
    C3_executeMove_preserves B1 (Move.mk 0 (-4) 4) (by decide) (by decide) (by decide)
      (fun _ => by decide) (fun h => absurd h (by decide))⟩

lemma runMoves_nil (b : Board) : runMoves b [] = some b := rfl

lemma runMoves_cons (b : Board) (m : Move) (l : List Move) :
    runMoves b (m :: l) = (executeMove b m).bind (fun x => runMoves x l) := by
  unfold runMoves
  rw [List.foldlM_cons]
  rfl

lemma runMoves_append (b : Board) (l1 l2 : List Move) :
    runMoves b (l1 ++ l2) = (runMoves b l1).bind (fun x => runMoves x l2) := by
  induction l1 generalizing b with
  | nil => simp [runMoves_nil]
  | cons m l ih =>
    rw [List.cons_append, runMoves_cons, runMoves_cons]
    cases executeMove b m with
    | none => simp
    | some x => simp [ih x]

lemma step_inl {b : Board} {st st' : SearchState} (hinv : StackInv b st)
    (h : step st = Sum.inl st') : StackInv b st' := by
  obtain ⟨stack, path, boards⟩ := st
  obtain ⟨hne, hlen, hrun⟩ := hinv
  cases stack with
  | nil => simp at hne
  | cons f rest =>
    have hlen' : rest.length + 1 = path.length + 1 := hlen
    simp only [step] at h
    by_cases hcur : f.current_move < f.valid_moves.length
    · rw [dif_pos hcur] at h
      cases hexec : executeMove f.b (f.valid_moves.get ⟨f.current_move, hcur⟩) with
      | none => rw [hexec] at h; exact absurd h (by simp)
      | some nb =>
        rw [hexec] at h
        dsimp only at h
        by_cases hmem : nb ∈ boards
        · rw [if_pos hmem] at h
          obtain rfl : _ = st' := Sum.inl.inj h
          refine ⟨by simp, by simpa using hlen', ?_⟩
          intro i hi
          have hi0 : i < (f :: rest).length := hi
          have hr := hrun i hi0
          cases i with
          | zero => exact hr
          | succ k => exact hr
        · rw [if_neg hmem] at h
          by_cases hwon : nb.hasWon
          · rw [if_pos hwon] at h
            exact absurd h (by simp)
          · rw [if_neg hwon] at h
            obtain rfl : _ = st' := Sum.inl.inj h
            refine ⟨by simp, ?_, ?_⟩
            · show rest.length + 1 + 1 = path.length + 1 + 1
              omega
            · intro i hi
              cases i with
              | zero =>
                show runMoves b ((f.valid_moves.get ⟨f.current_move, hcur⟩ ::
                  path).reverse) = some nb
                rw [List.reverse_cons, runMoves_append]
                have h0 := hrun 0 (by simp)
                simp only [List.drop_zero] at h0
                rw [h0]
                show (runMoves f.b [_]) = some nb
                rw [runMoves_cons, hexec]
                rfl
              | succ k =>
                have hk : k < (f :: rest).length := by
                  have hb : k + 1 < rest.length + 1 + 1 := hi
                  show k < rest.length + 1
                  omega
                have hr := hrun k hk
                cases k with
                | zero => exact hr
                | succ k2 => exact hr
    · rw [dif_neg hcur] at h
      cases path with
      | nil => exact absurd h (by simp)
      | cons mh pt =>
        obtain rfl : _ = st' := Sum.inl.inj h
        have hrlen : rest.length = pt.length + 1 := by
          have := hlen'
          simp at this
          omega
        refine ⟨?_, hrlen, ?_⟩
        · show rest ≠ []
          intro hx
          rw [hx] at hrlen
          simp at hrlen
        · intro i hi
          have hi' : i + 1 < (f :: rest).length := by
            have : i < rest.length := hi
            show i + 1 < rest.length + 1
            omega
          exact hrun (i + 1) hi'

lemma step_found {b : Board} {st : SearchState} {ms : List Move} (hinv : StackInv b st)
    (h : step st = Sum.inr (SolveResult.found ms)) :
    ∃ bf, runMoves b ms = some bf ∧ bf.hasWon = true := by
  obtain ⟨stack, path, boards⟩ := st
  obtain ⟨hne, hlen, hrun⟩ := hinv
  cases stack with
  | nil => simp at hne
  | cons f rest =>
    simp only [step] at h
    by_cases hcur : f.current_move < f.valid_moves.length
    · rw [dif_pos hcur] at h
      cases hexec : executeMove f.b (f.valid_moves.get ⟨f.current_move, hcur⟩) with
      | none => rw [hexec] at h; exact absurd h (by simp)
      | some nb =>
        rw [hexec] at h
        dsimp only at h
        by_cases hmem : nb ∈ boards
        · rw [if_pos hmem] at h
          exact absurd h (by simp)
        · rw [if_neg hmem] at h
          by_cases hwon : nb.hasWon
          · rw [if_pos hwon] at h
            have hms : (f.valid_moves.get ⟨f.current_move, hcur⟩ :: path).reverse = ms := by
              have h2 := Sum.inr.inj h
              exact SolveResult.found.inj h2
            refine ⟨nb, ?_, hwon⟩
            rw [← hms, List.reverse_cons, runMoves_append]
            have h0 := hrun 0 (by simp)
            simp only [List.drop_zero] at h0
            rw [h0]
            show (runMoves f.b [_]) = some nb
            rw [runMoves_cons, hexec]
            rfl
          · rw [if_neg hwon] at h
            exact absurd h (by simp)
    · rw [dif_neg hcur] at h
      cases path with
      | nil => exact absurd h (by simp)
      | cons mh pt => exact absurd h (by simp)

lemma solveLoop_found {b : Board} :
    ∀ (fuel : Nat) (st : SearchState) (ms : List Move), StackInv b st →
      solveLoop fuel st = SolveResult.found ms →
      ∃ bf, runMoves b ms = some bf ∧ bf.hasWon = true := by
  intro fuel
  induction fuel with
  | zero =>
    intro st ms _ h
    simp [solveLoop] at h
  | succ n ih =>
    intro st ms hinv h
    unfold solveLoop at h
    cases hstep : step st with
    | inr r =>
      rw [hstep] at h
      simp only at h
      rw [h] at hstep
      exact step_found hinv hstep
    | inl st' =>
      rw [hstep] at h
      exact ih st' ms (step_inl hinv hstep) h

lemma runMoves_take {b : Board} {ms : List Move} {bf : Board}
    (h : runMoves b ms = some bf) :
    ∀ i (hi : i < ms.length), ∃ bi bi', runMoves b (ms.take i) = some bi ∧
      executeMove bi (ms.get ⟨i, hi⟩) = some bi' := by
  intro i hi
  have hsplit : ms = ms.take i ++ ms.get ⟨i, hi⟩ :: ms.drop (i + 1) := by
    conv_lhs => rw [← List.take_append_drop i ms]
    congr 1
    exact (List.drop_eq_getElem_cons hi).symm ▸ rfl
  rw [hsplit, runMoves_append] at h
  obtain ⟨bi, h1, h2⟩ := Option.bind_eq_some.mp h
  rw [runMoves_cons] at h2
  obtain ⟨bi', h3, -⟩ := Option.bind_eq_some.mp h2
  exact ⟨bi, bi', h1, h3⟩

/-- C1: solver soundness.  If solve returns a non-empty move sequence, then
each move passes moveIsValid and moveIsValidForBoard against the board
reached by executing the preceding moves from the input board, and
executing the whole sequence succeeds and reaches a board with hasWon. -/
theorem C1_solve_sound (fuel : Nat) (b : Board) (ms : List Move)
    (hfound : solveFuel fuel b = SolveResult.found ms) (hne : ms ≠ []) :
    (∀ i (hi : i < ms.length), ∃ bi, runMoves b (ms.take i) = some bi ∧
      moveIsValid (ms.get ⟨i, hi⟩) = true ∧
      moveIsValidForBoard bi (ms.get ⟨i, hi⟩) = true) ∧
    ∃ bf, runMoves b ms = some bf ∧ bf.hasWon = true := by
  unfold solveFuel at hfound
  by_cases hw : b.hasWon
  · rw [if_pos hw] at hfound
    have : ([] : List Move) = ms := by simpa using hfound
    exact absurd this.symm hne
  · rw [if_neg hw] at hfound
    have hinv : StackInv b (initState b) := by
      refine ⟨by simp [initState], rfl, ?_⟩
      intro i hi
      have hi1 : i < 1 := hi
      have h0 : i = 0 := by omega
      subst h0
      rfl
    obtain ⟨bf, hrunAll, hwon⟩ := solveLoop_found fuel (initState b) ms hinv hfound
    refine ⟨?_, bf, hrunAll, hwon⟩
    intro i hi
    obtain ⟨bi, bi', htake, hexec⟩ := runMoves_take hrunAll i hi
    obtain ⟨h1, h2, -⟩ := executeMove_eq_some.mp hexec
    exact ⟨bi, htake, h1, h2⟩

/-- C1 witness: on the concrete valid board B1 the search finds the
single-move solution, which replays to a won board. -/
theorem C1_witness :
    solveFuel 2 B1 = SolveResult.found [Move.mk 0 (-4) 4] ∧
    ((∀ i (hi : i < [Move.mk 0 (-4) 4].length),
      ∃ bi, runMoves B1 ([Move.mk 0 (-4) 4].take i) = some bi ∧
        moveIsValid ([Move.mk 0 (-4) 4].get ⟨i, hi⟩) = true ∧
        moveIsValidForBoard bi ([Move.mk 0 (-4) 4].get ⟨i, hi⟩) = true) ∧
    ∃ bf, runMoves B1 [Move.mk 0 (-4) 4] = some bf ∧ bf.hasWon = true) :=
  ⟨by decide, C1_solve_sound 2 B1 [Move.mk 0 (-4) 4] (by decide) (by simp)⟩

lemma intRange12_mem {i : Int} (h : i ∈ intRange12) : -4 ≤ i ∧ i < 8 := by
  simp only [intRange12, List.mem_cons, List.not_mem_nil, or_false] at h
  rcases h with h | h | h | h | h | h | h | h | h | h | h | h <;> omega

lemma mem_rawMoves {b : Board} {m : Move} (h : m ∈ rawMoves b) :
    ∃ i_from, i_from ∈ intRange12 ∧ maxCount b i_from ≠ 0 ∧
      ∃ i_to, i_to ∈ intRange12 ∧
        m ∈ movesFromTo b (fromSlotCard b i_from) (maxCount b i_from) i_from i_to := by
  unfold rawMoves at h
  rw [List.mem_flatMap] at h
  obtain ⟨i_from, hif, hm⟩ := h
  unfold genFrom at hm
  by_cases h0 : maxCount b i_from = 0
  · rw [if_pos h0] at hm
    simp at hm
  · rw [if_neg h0] at hm
    rw [List.mem_flatMap] at hm
    obtain ⟨i_to, hit, hm⟩ := hm
    exact ⟨i_from, hif, h0, i_to, hit, hm⟩

lemma mem_getAllValidMoves {b : Board} {m : Move} (h : m ∈ getAllValidMoves b) :
    m ∈ rawMoves b := by
  unfold getAllValidMoves at h
  exact (List.perm_insertionSort moveOrder (rawMoves b)).mem_iff.mp h

lemma mem_movesFromTo {b : Board} {c : Card} {mc : Nat} {i_from i_to : Int} {m : Move}
    (h : m ∈ movesFromTo b c mc i_from i_to) :
    m.from_ = i_from ∧ m.to_ = i_to ∧ i_to ≠ i_from ∧
      ((i_to < 0 ∧ b.getSwap i_to = .free ∧ (m.size = 1 ∨ (m.size = 4 ∧ mc = 4))) ∨
       (0 ≤ i_to ∧ ((b.getField i_to).isEmpty = true ∨ (b.getField i_to).getTopD = c) ∧
         1 ≤ m.size ∧ m.size ≤ (mc : Int))) := by
  unfold movesFromTo at h
  by_cases heq : i_to = i_from
  · rw [if_pos heq] at h
    simp at h
  · rw [if_neg heq] at h
    by_cases hneg : i_to < 0
    · rw [if_pos hneg] at h
      cases hsw : b.getSwap i_to with
      | free =>
        rw [hsw] at h
        rcases List.mem_cons.mp h with rfl | h2
        · exact ⟨rfl, rfl, heq, Or.inl ⟨hneg, rfl, Or.inl rfl⟩⟩
        · by_cases h4 : mc = 4
          · rw [if_pos h4] at h2
            have : m = Move.mk i_from i_to 4 := by simpa using h2
            subst this
            exact ⟨rfl, rfl, heq, Or.inl ⟨hneg, rfl, Or.inr ⟨rfl, h4⟩⟩⟩
          · rw [if_neg h4] at h2
            simp at h2
      | locked => rw [hsw] at h; simp at h
      | occupied d => rw [hsw] at h; simp at h
      | collapsed d => rw [hsw] at h; simp at h
    · rw [if_neg hneg] at h
      by_cases hok : ((b.getField i_to).isEmpty ||
          decide ((b.getField i_to).getTopD = c)) = true
      · rw [if_pos hok] at h
        simp only [List.mem_map, List.mem_range] at h
        obtain ⟨j, hj, rfl⟩ := h
        refine ⟨rfl, rfl, heq, Or.inr ⟨by omega, ?_,
          by show (1 : Int) ≤ (j : Int) + 1; omega,
          by show ((j : Int) + 1) ≤ (mc : Int); omega⟩⟩
        rcases Bool.or_eq_true _ _ ▸ hok with h1 | h1
        · exact Or.inl h1
        · exact Or.inr (of_decide_eq_true h1)
      · rw [if_neg hok] at h
        simp at h

lemma maxCount_field {b : Board} {i : Int} (hi : ¬i < 0) (h : maxCount b i ≠ 0) :
    (b.getField i).isEmpty = false ∧ (b.getField i).collapsed = false ∧
      maxCount b i = (b.getField i).getTopSize := by
  unfold maxCount at h ⊢
  rw [if_neg hi] at h ⊢
  by_cases hc : ((b.getField i).isEmpty || (b.getField i).collapsed) = true
  · rw [if_pos hc] at h
    exact absurd rfl h
  · rw [if_neg hc] at h ⊢
    simp only [Bool.or_eq_true, not_or, Bool.not_eq_true] at hc
    exact ⟨hc.1, hc.2, rfl⟩

lemma maxCount_swap {b : Board} {i : Int} (hi : i < 0) (h : maxCount b i ≠ 0) :
    ∃ d, b.getSwap i = .occupied d := by
  unfold maxCount at h
  rw [if_pos hi] at h
  by_cases hc : (b.getSwap i).isOccupied = true
  · exact isOccupied_iff.mp hc
  · rw [if_neg hc] at h
    exact absurd rfl h

lemma getField_fin (b : Board) (i : Fin 8) : b.getField (i.val : Int) = b.field i := by
  unfold Board.getField
  rw [dif_pos (by omega)]
  congr 1

lemma getSwap_fin (b : Board) (j : Fin 4) : b.getSwap (-(j.val + 1) : Int) = b.swaps j := by
  unfold Board.getSwap
  rw [dif_pos (by omega)]
  congr 1
  simp only [Fin.ext_iff]
  omega

lemma getField_eq_field {b : Board} {i : Int} (h : 0 ≤ i ∧ i < 8) :
    b.getField i = b.field ⟨i.toNat, by omega⟩ := dif_pos h

lemma getSwap_eq_swaps {b : Board} {i : Int} (h : -4 ≤ i ∧ i < 0) :
    b.getSwap i = b.swaps ⟨(-i - 1).toNat, by omega⟩ := dif_pos h

lemma stack_count_le (b : Board) (i : Fin 8) (x : Card) :
    (b.field i).cards.count x ≤ ∑ k : Fin 8, (b.field k).cards.count x :=
  Finset.single_le_sum (f := fun k => (b.field k).cards.count x)
    (fun _ _ => Nat.zero_le _) (Finset.mem_univ i)

lemma two_stacks_count (b : Board) (i j : Fin 8) (hij : i ≠ j) (x : Card) :
    (b.field i).cards.count x + (b.field j).cards.count x ≤
      ∑ k : Fin 8, (b.field k).cards.count x := by
  rw [Finset.sum_eq_sum_diff_singleton_add (Finset.mem_univ i)
    (fun k => (b.field k).cards.count x)]
  have hj : j ∈ Finset.univ \ {i} := by
    rw [Finset.mem_sdiff]
    exact ⟨Finset.mem_univ j, by simp [Ne.symm hij]⟩
  have h2 := Finset.single_le_sum (f := fun k => (b.field k).cards.count x)
    (fun k _ => Nat.zero_le _) hj
  simp only at h2 ⊢
  omega

lemma swap_count_le (b : Board) (j : Fin 4) (x : Card) :
    Board.swapCount x (b.swaps j) ≤ ∑ k : Fin 4, Board.swapCount x (b.swaps k) :=
  Finset.single_le_sum (f := fun k => Board.swapCount x (b.swaps k))
    (fun _ _ => Nat.zero_le _) (Finset.mem_univ j)

lemma isEmpty_false_iff {s : CardStack} : s.isEmpty = false ↔ s.cards ≠ [] := by
  unfold CardStack.isEmpty
  cases s.cards <;> simp

lemma getTopD_mem (s : CardStack) (h : s.cards ≠ []) : s.getTopD ∈ s.cards := by
  obtain ⟨cards, coll⟩ := s
  cases cards with
  | nil => simp at h
  | cons t l => exact List.mem_cons_self t l

lemma setField_field_ne (b : Board) (it : Int) (s : CardStack) (i : Fin 8)
    (h : (i.val : Int) ≠ it) : (b.setField it s).field i = b.field i := by
  rw [← getField_fin, getField_setField_ne (Ne.symm h), getField_fin]

lemma setSwap_swaps_ne (b : Board) (it : Int) (s : SwapField) (j : Fin 4)
    (h : it ≠ -(j.val + 1)) : (b.setSwap it s).swaps j = b.swaps j := by
  rw [← getSwap_fin, getSwap_setSwap_ne h, getSwap_fin]

lemma setField_swaps_fin (b : Board) (it : Int) (s : CardStack) (j : Fin 4) :
    (b.setField it s).swaps j = b.swaps j := congrFun (setField_swaps b it s) j

lemma setSwap_field_fin (b : Board) (it : Int) (s : SwapField) (i : Fin 8) :
    (b.setSwap it s).field i = b.field i := congrFun (setSwap_field b it s) i

lemma unlockSwap_field_fin (b : Board) (i : Fin 8) :
    b.unlockSwap.field i = b.field i := congrFun (unlockSwap_field b) i

lemma unlockSwap_preserve (b : Board) (j : Fin 4) (h : b.swaps j ≠ .locked) :
    b.unlockSwap.swaps j = b.swaps j := by
  unfold Board.unlockSwap
  cases hfind : (List.finRange 4).find? (fun k => (b.swaps k).isLocked) with
  | none => rfl
  | some k =>
    have hkl : b.swaps k = SwapField.locked := by
      have := List.find?_some hfind
      cases hc : b.swaps k
      · rfl
      all_goals rw [hc] at this; simp [SwapField.isLocked] at this
    have hkj : j ≠ k := by
      intro heq
      rw [heq] at h
      exact h hkl
    exact updAt_ne b.swaps k j SwapField.free hkj

/-- C7 (amended): on a valid board whose collapsed stacks properly hold 4
equal cards (the CardStack invariant), no generated move names a collapsed
stack or a Collapsed swap field as its from or to slot, and consequently
executing any generated move leaves every collapsed stack and Collapsed
swap field unchanged.  (The original claim, with isValid alone as the
hypothesis, is refuted by C7_counterexample: isValid only counts cards, so
a board may carry a collapsed flag on a non-run stack whose top matches
another stack.) -/
theorem C7_collapse_monotone (b : Board)
    (hv : b.isValid = true)
    (hcoll : ∀ i : Fin 8, (b.field i).collapsed = true →
      ∃ x : Card, (b.field i).cards = [x, x, x, x])
    (m : Move) (hm : m ∈ getAllValidMoves b) :
    ((0 ≤ m.from_ → (b.getField m.from_).collapsed = false) ∧
     (m.from_ < 0 → ∀ x : Card, b.getSwap m.from_ ≠ SwapField.collapsed x) ∧
     (0 ≤ m.to_ → (b.getField m.to_).collapsed = false) ∧
     (m.to_ < 0 → ∀ x : Card, b.getSwap m.to_ ≠ SwapField.collapsed x)) ∧
    ∀ b', executeMove b m = some b' →
      (∀ i : Fin 8, (b.field i).collapsed = true → b'.field i = b.field i) ∧
      (∀ j : Fin 4, (∃ x : Card, b.swaps j = SwapField.collapsed x) →
        b'.swaps j = b.swaps j) := by
  obtain ⟨i_from, hif, hmc, i_to, hit, hmem⟩ := mem_rawMoves (mem_getAllValidMoves hm)
  obtain ⟨hmf, hmt, hne_to, hcase⟩ := mem_movesFromTo hmem
  subst hmf
  subst hmt
  obtain ⟨hif4, hif8⟩ := intRange12_mem hif
  obtain ⟨hit4, hit8⟩ := intRange12_mem hit
  have Hfrom_field : 0 ≤ m.from_ → (b.getField m.from_).collapsed = false := by
    intro h0
    exact (maxCount_field (by omega) hmc).2.1
  have Hfrom_swap : m.from_ < 0 → ∀ x : Card,
      b.getSwap m.from_ ≠ SwapField.collapsed x := by
    intro hneg x hcEq
    obtain ⟨d, hd⟩ := maxCount_swap hneg hmc
    rw [hd] at hcEq
    simp at hcEq
  have Hto_swap : m.to_ < 0 → ∀ x : Card,
      b.getSwap m.to_ ≠ SwapField.collapsed x := by
    intro hneg x hcEq
    rcases hcase with ⟨hn2, hfree, hsz⟩ | ⟨hge, hc2, hs1, hsmc⟩
    · rw [hfree] at hcEq
      simp at hcEq
    · omega
  have Hto_field : 0 ≤ m.to_ → (b.getField m.to_).collapsed = false := by
    intro h0
    rcases hcase with ⟨hneg, hfree, hsz⟩ | ⟨hge, hcond, hs1, hsmc⟩
    · omega
    · by_contra hcol
      rw [Bool.not_eq_false] at hcol
      have hjtlt : m.to_ < 8 := hit8
      have hbf : b.getField m.to_ = b.field ⟨m.to_.toNat, by omega⟩ :=
        getField_eq_field ⟨h0, by omega⟩
      obtain ⟨x, hx⟩ := hcoll ⟨m.to_.toNat, by omega⟩ (by rw [← hbf]; exact hcol)
      have hnotempty : (b.getField m.to_).isEmpty = false := by
        rw [isEmpty_false_iff, hbf, hx]
        simp
      have htop : (b.getField m.to_).getTopD = fromSlotCard b m.from_ := by
        rcases hcond with hc1 | hc1
        · rw [hnotempty] at hc1
          simp at hc1
        · exact hc1
      have htopx : (b.getField m.to_).getTopD = x := by
        rw [hbf]
        unfold CardStack.getTopD
        rw [hx]
        rfl
      have hcx : fromSlotCard b m.from_ = x := by rw [← htop, htopx]
      have hcnt4 : (b.field ⟨m.to_.toNat, by omega⟩).cards.count x = 4 := by
        rw [hx]
        simp [List.count_cons]
      have hcc := ((isValid_iff b).mp hv).2 x
      unfold Board.countCard at hcc
      by_cases hfneg : m.from_ < 0
      · obtain ⟨d, hd⟩ := maxCount_swap hfneg hmc
        have hcd : fromSlotCard b m.from_ = d := by
          unfold fromSlotCard
          rw [if_pos hfneg, hd]
          rfl
        have hdx : d = x := by rw [← hcd, hcx]
        have hsw : b.swaps ⟨(-m.from_ - 1).toNat, by omega⟩ = .occupied d := by
          rw [← getSwap_eq_swaps ⟨hif4, hfneg⟩]
          exact hd
        have h1 : Board.swapCount x (b.swaps ⟨(-m.from_ - 1).toNat, by omega⟩) = 1 := by
          rw [hsw]
          show (if d = x then 1 else 0) = 1
          rw [if_pos hdx]
        have hsum1 := swap_count_le b ⟨(-m.from_ - 1).toNat, by omega⟩ x
        have hsum2 := stack_count_le b ⟨m.to_.toNat, by omega⟩ x
        omega
      · push_neg at hfneg
        have hbf2 : b.getField m.from_ = b.field ⟨m.from_.toNat, by omega⟩ :=
          getField_eq_field ⟨hfneg, by omega⟩
        have hmcf := maxCount_field (not_lt.mpr hfneg) hmc
        have hne2 : (b.field ⟨m.from_.toNat, by omega⟩).cards ≠ [] := by
          rw [← hbf2]
          exact isEmpty_false_iff.mp hmcf.1
        have hcf : fromSlotCard b m.from_ = (b.getField m.from_).getTopD := by
          unfold fromSlotCard
          rw [if_neg (not_lt.mpr hfneg)]
        have hmem2 : x ∈ (b.field ⟨m.from_.toNat, by omega⟩).cards := by
          rw [← hcx, hcf, hbf2]
          exact getTopD_mem _ hne2
        have hcnt1 : 0 < (b.field ⟨m.from_.toNat, by omega⟩).cards.count x :=
          List.count_pos_iff.mpr hmem2
        have hjj : (⟨m.to_.toNat, by omega⟩ : Fin 8) ≠ ⟨m.from_.toNat, by omega⟩ := by
          intro heq
          have h2 : m.to_.toNat = m.from_.toNat := congrArg Fin.val heq
          omega
        have hsum := two_stacks_count b ⟨m.to_.toNat, by omega⟩ ⟨m.from_.toNat, by omega⟩
          hjj x
        omega
  refine ⟨⟨Hfrom_field, Hfrom_swap, Hto_field, Hto_swap⟩, ?_⟩
  intro b' hE
  obtain ⟨-, -, -, b1, hrm, hps⟩ := executeMove_eq_some.mp hE
  constructor
  · intro i hcoli
    have hivf : (i.val : Int) ≠ m.from_ := by
      intro heqq
      by_cases hfneg : m.from_ < 0
      · omega
      · have := Hfrom_field (by omega)
        rw [← heqq, getField_fin] at this
        rw [hcoli] at this
        simp at this
    have hivt : (i.val : Int) ≠ m.to_ := by
      intro heqq
      by_cases htneg : m.to_ < 0
      · omega
      · have := Hto_field (by omega)
        rw [← heqq, getField_fin] at this
        rw [hcoli] at this
        simp at this
    have hb1 : b1.field i = b.field i := by
      by_cases hfneg : m.from_ < 0
      · obtain ⟨sw, hpop, rfl⟩ := (removeFrom_eq_some_swap hfneg).mp hrm
        exact setSwap_field_fin b m.from_ sw i
      · push_neg at hfneg
        obtain ⟨s, hpop, rfl⟩ := (removeFrom_eq_some_field hfneg).mp hrm
        exact setField_field_ne b m.from_ s i hivf
    by_cases htneg : m.to_ < 0
    · obtain ⟨sw, hpush, rfl⟩ := (pushTo_eq_some_swap htneg).mp hps
      rw [setSwap_field_fin, hb1]
    · push_neg at htneg
      obtain ⟨s, hpush, rfl⟩ := (pushTo_eq_some_field htneg).mp hps
      by_cases hcl : s.tryCollapse.2
      · rw [if_pos hcl, unlockSwap_field_fin, setField_field_ne _ _ _ _ hivt, hb1]
      · rw [if_neg hcl, setField_field_ne _ _ _ _ hivt, hb1]
  · rintro j ⟨x, hsj⟩
    have hjvf : m.from_ ≠ -((j.val : Int) + 1) := by
      intro heqq
      by_cases hfneg : m.from_ < 0
      · have := Hfrom_swap hfneg x
        rw [heqq] at this
        rw [getSwap_fin] at this
        exact this hsj
      · omega
    have hjvt : m.to_ ≠ -((j.val : Int) + 1) := by
      intro heqq
      by_cases htneg : m.to_ < 0
      · have := Hto_swap htneg x
        rw [heqq] at this
        rw [getSwap_fin] at this
        exact this hsj
      · omega
    have hb1 : b1.swaps j = b.swaps j := by
      by_cases hfneg : m.from_ < 0
      · obtain ⟨sw, hpop, rfl⟩ := (removeFrom_eq_some_swap hfneg).mp hrm
        exact setSwap_swaps_ne b m.from_ sw j hjvf
      · push_neg at hfneg
        obtain ⟨s, hpop, rfl⟩ := (removeFrom_eq_some_field hfneg).mp hrm
        exact setField_swaps_fin b m.from_ s j
    by_cases htneg : m.to_ < 0
    · obtain ⟨sw, hpush, rfl⟩ := (pushTo_eq_some_swap htneg).mp hps
      rw [setSwap_swaps_ne _ _ _ _ hjvt, hb1]
    · push_neg at htneg
      obtain ⟨s, hpush, rfl⟩ := (pushTo_eq_some_field htneg).mp hps
      have hinner : (b1.setField m.to_ s.tryCollapse.1).swaps j = b.swaps j := by
        rw [setField_swaps_fin, hb1]
      by_cases hcl : s.tryCollapse.2
      · rw [if_pos hcl, unlockSwap_preserve, hinner]
        rw [hinner, hsj]
        simp
      · rw [if_neg hcl, hinner]

/-- C7 witness: the amended statement instantiated on the valid board B1,
whose seven collapsed stacks are proper 4-card runs, and its first
generated move. -/
theorem C7_witness :
    B1.isValid = true ∧ Move.mk 0 (-4) 4 ∈ getAllValidMoves B1 ∧
      ((0 ≤ (Move.mk 0 (-4) 4).from_ →
        (B1.getField (Move.mk 0 (-4) 4).from_).collapsed = false) ∧
       ((Move.mk 0 (-4) 4).from_ < 0 → ∀ x : Card,
        B1.getSwap (Move.mk 0 (-4) 4).from_ ≠ SwapField.collapsed x) ∧
       (0 ≤ (Move.mk 0 (-4) 4).to_ →
        (B1.getField (Move.mk 0 (-4) 4).to_).collapsed = false) ∧
       ((Move.mk 0 (-4) 4).to_ < 0 → ∀ x : Card,
        B1.getSwap (Move.mk 0 (-4) 4).to_ ≠ SwapField.collapsed x)) ∧
      ∀ b', executeMove B1 (Move.mk 0 (-4) 4) = some b' →
        (∀ i : Fin 8, (B1.field i).collapsed = true → b'.field i = B1.field i) ∧
        (∀ j : Fin 4, (∃ x : Card, B1.swaps j = SwapField.collapsed x) →
          b'.swaps j = B1.swaps j) :=
  ⟨by decide, by decide,
    (C7_collapse_monotone B1 (by decide) (by decide) (Move.mk 0 (-4) 4) (by decide)).1,
    (C7_collapse_monotone B1 (by decide) (by decide) (Move.mk 0 (-4) 4) (by decide)).2⟩

lemma encList_lt (l : List Card) : encList l < 11 ^ l.length := by
  induction l with
  | nil => simp [encList]
  | cons c l ih =>
    have hc := c.isLt
    simp only [encList, List.length_cons, pow_succ]
    omega

lemma encList_inj : ∀ l1 l2 : List Card, encList l1 = encList l2 → l1 = l2 := by
  intro l1
  induction l1 with
  | nil =>
    intro l2 h
    cases l2 with
    | nil => rfl
    | cons d l2 =>
      simp only [encList] at h
      omega
  | cons c l1 ih =>
    intro l2 h
    cases l2 with
    | nil =>
      simp only [encList] at h
      omega
    | cons d l2 =>
      simp only [encList] at h
      have hc := c.isLt
      have hd := d.isLt
      have hval : c.val = d.val ∧ encList l1 = encList l2 := by omega
      rw [ih l2 hval.2, Fin.ext hval.1]

lemma swapCodeN_inj : ∀ s1 s2 : SwapField, swapCodeN s1 = swapCodeN s2 → s1 = s2 := by
  intro s1 s2 hF
  have h := congrArg Fin.val hF
  cases s1 with
  | locked =>
    cases s2 with
    | locked => rfl
    | free => simp [swapCodeN] at h
    | occupied d => simp only [swapCodeN] at h; omega
    | collapsed d => simp only [swapCodeN] at h; omega
  | free =>
    cases s2 with
    | locked => simp [swapCodeN] at h
    | free => rfl
    | occupied d => simp only [swapCodeN] at h; omega
    | collapsed d => simp only [swapCodeN] at h; omega
  | occupied c =>
    cases s2 with
    | locked => simp only [swapCodeN] at h; omega
    | free => simp only [swapCodeN] at h; omega
    | occupied d =>
      simp only [swapCodeN] at h
      exact congrArg SwapField.occupied (Fin.ext (by omega))
    | collapsed d =>
      have hc := c.isLt
      have hd := d.isLt
      simp only [swapCodeN] at h
      omega
  | collapsed c =>
    cases s2 with
    | locked => simp only [swapCodeN] at h; omega
    | free => simp only [swapCodeN] at h; omega
    | occupied d =>
      have hc := c.isLt
      have hd := d.isLt
      simp only [swapCodeN] at h
      omega
    | collapsed d =>
      simp only [swapCodeN] at h
      exact congrArg SwapField.collapsed (Fin.ext (by omega))

lemma stack_len_le {b : Board} (h : b.totalCards = 40) (i : Fin 8) :
    (b.field i).cards.length ≤ 40 := by
  unfold Board.totalCards at h
  have hle := Finset.single_le_sum (f := fun k => (b.field k).cards.length)
    (fun k _ => Nat.zero_le _) (Finset.mem_univ i)
  simp only at hle
  omega

lemma encList_lt_40 {b : Board} (h : b.totalCards = 40) (i : Fin 8) :
    encList (b.field i).cards < 11 ^ 40 := by
  have h1 := encList_lt (b.field i).cards
  have h2 : (11 : Nat) ^ (b.field i).cards.length ≤ 11 ^ 40 :=
    Nat.pow_le_pow_right (by omega) (stack_len_le h i)
  omega

lemma cardStack_ext {s1 s2 : CardStack} (h1 : s1.cards = s2.cards)
    (h2 : s1.collapsed = s2.collapsed) : s1 = s2 := by
  cases s1
  cases s2
  simp only at h1 h2
  rw [h1, h2]

lemma board_ext {b1 b2 : Board} (hs : b1.swaps = b2.swaps)
    (hf : b1.field = b2.field) : b1 = b2 := by
  cases b1
  cases b2
  simp only at hs hf
  rw [hs, hf]

lemma boardCode_injOn : ∀ b1 b2 : Board, b1.totalCards = 40 → b2.totalCards = 40 →
    boardCode b1 = boardCode b2 → b1 = b2 := by
  intro b1 b2 h1 h2 he
  refine board_ext (funext fun j => ?_) (funext fun i => ?_)
  · have hj := congrFun (congrArg Prod.snd he) j
    dsimp only [boardCode] at hj
    exact swapCodeN_inj _ _ hj
  · have hi := congrFun (congrArg Prod.fst he) i
    dsimp only [boardCode] at hi
    have hcoll : (b1.field i).collapsed = (b2.field i).collapsed := congrArg Prod.snd hi
    have henc : min (encList (b1.field i).cards) (11 ^ 40 - 1) =
        min (encList (b2.field i).cards) (11 ^ 40 - 1) :=
      congrArg (fun p => (Prod.fst p).val) hi
    have hb1 := encList_lt_40 h1 i
    have hb2 := encList_lt_40 h2 i
    rw [min_eq_left (by omega), min_eq_left (by omega)] at henc
    exact cardStack_ext (encList_inj _ _ henc) hcoll

lemma visited_card_le (v : Finset Board) (hv : ∀ bd ∈ v, bd.totalCards = 40) :
    v.card ≤ NBoards := by
  have h := Finset.card_le_card_of_injOn boardCode
    (fun bd _ => Finset.mem_univ (boardCode bd))
    (fun b1 hb1 b2 hb2 he => boardCode_injOn b1 b2 (hv b1 hb1) (hv b2 hb2) he)
  rwa [Finset.card_univ] at h

lemma list_sum_le {l : List Nat} {c : Nat} (h : ∀ x ∈ l, x ≤ c) :
    l.sum ≤ l.length * c := by
  induction l with
  | nil => simp
  | cons a l ih =>
    have ha := h a (List.mem_cons_self a l)
    have hrest := ih (fun x hx => h x (List.mem_cons_of_mem a hx))
    simp only [List.sum_cons, List.length_cons]
    have : (l.length + 1) * c = l.length * c + c := by ring
    omega

lemma getField_len_le {b : Board} (h : b.totalCards = 40) (i : Int) :
    (b.getField i).cards.length ≤ 40 := by
  unfold Board.getField
  split
  · rename_i hr
    exact stack_len_le h _
  · simp

lemma maxCount_le {b : Board} (h : b.totalCards = 40) (i : Int) :
    maxCount b i ≤ 40 := by
  unfold maxCount
  split
  · split <;> omega
  · split
    · omega
    · have h1 := getTopSize_le_length (b.getField i)
      have h2 := getField_len_le h i
      omega

lemma movesFromTo_len {b : Board} {c : Card} {mc : Nat} {i_from i_to : Int}
    (hmc : mc ≤ 40) : (movesFromTo b c mc i_from i_to).length ≤ 40 := by
  unfold movesFromTo
  split
  · simp
  · split
    · split
      · simp only [List.length_cons]
        split <;> simp
      all_goals simp
    · split
      · rw [List.length_map, List.length_range]
        exact hmc
      · simp

lemma genFrom_len {b : Board} (h : b.totalCards = 40) (i_from : Int) :
    (genFrom b i_from).length ≤ 480 := by
  unfold genFrom
  split
  · simp
  · rw [List.length_flatMap]
    have hb := list_sum_le (l := intRange12.map
        (List.length ∘ fun i_to => movesFromTo b (fromSlotCard b i_from)
          (maxCount b i_from) i_from i_to)) (c := 40) ?_
    · have hlen : (intRange12.map (List.length ∘ fun i_to => movesFromTo b
          (fromSlotCard b i_from) (maxCount b i_from) i_from i_to)).length = 12 := by
        rw [List.length_map]
        rfl
      rw [hlen] at hb
      omega
    · intro x hx
      rw [List.mem_map] at hx
      obtain ⟨i_to, hit, rfl⟩ := hx
      exact movesFromTo_len (maxCount_le h i_from)

lemma getAllValidMoves_len {b : Board} (h : b.totalCards = 40) :
    (getAllValidMoves b).length ≤ 5760 := by
  unfold getAllValidMoves
  rw [(List.perm_insertionSort moveOrder (rawMoves b)).length_eq]
  unfold rawMoves
  rw [List.length_flatMap]
  have hb := list_sum_le (l := intRange12.map (List.length ∘ genFrom b)) (c := 480) ?_
  · have hlen : (intRange12.map (List.length ∘ genFrom b)).length = 12 := by
      rw [List.length_map]
      rfl
    rw [hlen] at hb
    omega
  · intro x hx
    rw [List.mem_map] at hx
    obtain ⟨i_from, hif, rfl⟩ := hx
    exact genFrom_len h i_from

lemma step_ne_outOfFuel (st : SearchState) : step st ≠ Sum.inr SolveResult.outOfFuel := by
  obtain ⟨stack, path, boards⟩ := st
  cases stack with
  | nil => simp [step]
  | cons f rest =>
    simp only [step]
    by_cases hcur : f.current_move < f.valid_moves.length
    · rw [dif_pos hcur]
      cases executeMove f.b (f.valid_moves.get ⟨f.current_move, hcur⟩) with
      | none => simp
      | some nb =>
        dsimp only
        split_ifs <;> simp
    · rw [dif_neg hcur]
      cases path <;> simp

lemma step_cont {st st' : SearchState} (hI : TInv st) (h : step st = Sum.inl st') :
    TInv st' ∧ mu st' < mu st := by
  obtain ⟨stack, path, boards⟩ := st
  obtain ⟨hIb, hIf⟩ := hI
  cases stack with
  | nil => simp [step] at h
  | cons f rest =>
    simp only [step] at h
    by_cases hcur : f.current_move < f.valid_moves.length
    · rw [dif_pos hcur] at h
      cases hexec : executeMove f.b (f.valid_moves.get ⟨f.current_move, hcur⟩) with
      | none => rw [hexec] at h; exact absurd h (by simp)
      | some nb =>
        rw [hexec] at h
        dsimp only at h
        have hnb40 : nb.totalCards = 40 := by
          obtain ⟨-, -, hval, -⟩ := executeMove_eq_some.mp hexec
          exact ((isValid_iff nb).mp hval).1
        by_cases hmem : nb ∈ boards
        · rw [if_pos hmem] at h
          obtain rfl : _ = st' := Sum.inl.inj h
          refine ⟨⟨hIb, ?_⟩, ?_⟩
          · intro f' hf'
            rcases List.mem_cons.mp hf' with rfl | hf'
            · exact hIf f (List.mem_cons_self f rest)
            · exact hIf f' (List.mem_cons_of_mem f hf')
          · unfold mu stackWeight
            simp only [List.map_cons, List.sum_cons]
            have hw : frameWeight { f with current_move := f.current_move + 1 } + 1 =
                frameWeight f := by
              unfold frameWeight
              simp only
              omega
            omega
        · rw [if_neg hmem] at h
          by_cases hwon : nb.hasWon
          · rw [if_pos hwon] at h
            exact absurd h (by simp)
          · rw [if_neg hwon] at h
            obtain rfl : _ = st' := Sum.inl.inj h
            have hIb' : ∀ bd ∈ insert nb boards, bd.totalCards = 40 := by
              intro bd hbd
              rcases Finset.mem_insert.mp hbd with rfl | hbd
              · exact hnb40
              · exact hIb bd hbd
            refine ⟨⟨hIb', ?_⟩, ?_⟩
            · intro f' hf'
              rcases List.mem_cons.mp hf' with rfl | hf'
              · exact getAllValidMoves_len hnb40
              · rcases List.mem_cons.mp hf' with rfl | hf'
                · exact hIf f (List.mem_cons_self f rest)
                · exact hIf f' (List.mem_cons_of_mem f hf')
            · have hcard : (insert nb boards).card = boards.card + 1 :=
                Finset.card_insert_of_not_mem hmem
              have hcardle : (insert nb boards).card ≤ NBoards :=
                visited_card_le _ hIb'
              unfold mu stackWeight
              simp only [List.map_cons, List.sum_cons]
              have hw_new : frameWeight ⟨nb, getAllValidMoves nb, 0⟩ ≤ 1 + 5760 := by
                unfold frameWeight
                simp only
                have := getAllValidMoves_len hnb40
                omega
              have hw_adv : frameWeight { f with current_move := f.current_move + 1 } + 1 =
                  frameWeight f := by
                unfold frameWeight
                simp only
                omega
              omega
    · rw [dif_neg hcur] at h
      cases path with
      | nil => exact absurd h (by simp)
      | cons mh pt =>
        obtain rfl : _ = st' := Sum.inl.inj h
        refine ⟨⟨hIb, fun f' hf' => hIf f' (List.mem_cons_of_mem f hf')⟩, ?_⟩
        unfold mu stackWeight
        simp only [List.map_cons, List.sum_cons]
        have hw : 1 ≤ frameWeight f := by
          unfold frameWeight
          omega
        omega

lemma solveLoop_ne_outOfFuel :
    ∀ (fuel : Nat) (st : SearchState), TInv st → mu st < fuel →
      solveLoop fuel st ≠ SolveResult.outOfFuel := by
  intro fuel
  induction fuel with
  | zero =>
    intro st _ h
    omega
  | succ n ih =>
    intro st hI hmu
    unfold solveLoop
    cases hstep : step st with
    | inr r =>
      intro hcontra
      simp only at hcontra
      rw [hcontra] at hstep
      exact step_ne_outOfFuel st hstep
    | inl st' =>
      obtain ⟨hI', hlt⟩ := step_cont hI hstep
      exact ih st' hI' (by omega)

/-- C4: termination of solve.  For every valid board there is a fuel bound
under which the fuel-indexed search loop finishes: each iteration either
pops a frame, advances a cursor, stops, or pushes a frame while inserting
a previously unvisited 40-card board into the visited set, and there are
only finitely many such boards, so the measure `mu` strictly decreases. -/
theorem C4_solve_terminates (b : Board) (hv : b.isValid = true) :
    ∃ fuel, solveFuel fuel b ≠ SolveResult.outOfFuel := by
  by_cases hw : b.hasWon
  · refine ⟨0, ?_⟩
    unfold solveFuel
    rw [if_pos hw]
    simp
  · refine ⟨mu (initState b) + 1, ?_⟩
    unfold solveFuel
    rw [if_neg hw]
    apply solveLoop_ne_outOfFuel
    · constructor
      · intro bd hbd
        simp [initState] at hbd
      · intro f hf
        simp only [initState, List.mem_singleton] at hf
        subst hf
        exact getAllValidMoves_len ((isValid_iff b).mp hv).1
    · omega

/-- C4 witness: the valid board B1 admits a terminating fuel bound. -/
theorem C4_witness :
    B1.isValid = true ∧ ∃ fuel, solveFuel fuel B1 ≠ SolveResult.outOfFuel :=
  ⟨by decide, C4_solve_terminates B1 (by decide)⟩

end Kabufuda
